import Mathlib

/-!
Verification development for the Tek compiler front-end (tokenizer, Pratt
recursive-descent parser, linter rules).  The tokenizer, the `newExpr`
production and the `declarationsInClass` linter rule are embedded directly
from the TypeScript sources (`Tokenizer.ts`, `newExpr.ts`,
`declarations-in-class.ts`).  Components whose sources are not part of the
snapshot (the grammar token tables, the AST node classes, the Pratt engine
of the `Parser` class and its helpers) are modelled from the specification;
each such definition carries a doc comment saying so.

Strings are modelled as `List Char`; a line position is a 0-based
`(line, column)` pair and a `Span` is a half-open range of positions,
exactly as in `position.ts`.
-/

set_option autoImplicit false

namespace Syntek

/-- A 0-based `(line, column)` source position, as in `position.ts`. -/
structure Pos where
  line : Nat
  col : Nat
deriving Repr, DecidableEq

/-- A half-open `[start, stop)` range of positions, as in `position.ts`
(`Span` there names the second field `end`, a reserved word here). -/
structure Span where
  start : Pos
  stop : Pos
deriving Repr, DecidableEq

/-- Build a span lying on a single line. -/
def mkSpan (li a b : Nat) : Span := ⟨⟨li, a⟩, ⟨li, b⟩⟩

/-- Diagnostic severity, from `diagnostic.ts`. -/
inductive Level where
  | ERROR
  | WARNING
  | INFO
deriving Repr, DecidableEq

/-- The closed token-kind enumeration `LexicalToken`.  Modelled from the spec:
the grammar module defining `LexicalToken` is not in the snapshot; the
constructors follow section 3.2 (keywords, punctuation, operators, literals,
`IDENTIFIER`, `NUMBER`, `STRING`, `COMMENT`, `NEWLINE`, `INDENT`, `OUTDENT`,
`EOF`) together with the kinds the snapshot's `Tokenizer` names explicitly
(`IS_NOT`, `IS_LESS_THAN`, `IS_GREATER_THAN`, `COMMENT`). -/
inductive LexicalToken where
  | NUMBER
  | STRING
  | COMMENT
  | IDENTIFIER
  | NEWLINE
  | INDENT
  | OUTDENT
  | EOF
  | L_PAR
  | R_PAR
  | L_SQB
  | R_SQB
  | L_BRACE
  | R_BRACE
  | DOT
  | COMMA
  | COLON
  | LT
  | GT
  | EQUAL
  | PLUS
  | MINUS
  | STAR
  | SLASH
  | PERCENT
  | IF
  | ELSE
  | NEW
  | VAR
  | FUNCTION
  | CLASS
  | IMPORT
  | EXTENDS
  | STATIC
  | THIS
  | SUPER
  | ASYNC
  | INSTANCEOF
  | SWITCH
  | CASE
  | DEFAULT
  | FOR
  | IN
  | WHILE
  | REPEAT
  | TRY
  | CATCH
  | FINALLY
  | THROW
  | RETURN
  | BREAK
  | CONTINUE
  | FALLTHROUGH
  | IS
  | IS_NOT
  | IS_LESS_THAN
  | IS_GREATER_THAN
  | NOT
  | AND
  | OR
  | TRUE
  | FALSE
  | NULL
deriving Repr, DecidableEq

/-- A lexical token: kind, exact lexeme and span, as in `Token.ts`. -/
structure Token where
  kind : LexicalToken
  lexeme : List Char
  span : Span
deriving Repr, DecidableEq

/-- A diagnostic record, from `diagnostic.ts` (the `info` list is not needed
by any tokenizer code path and is omitted). -/
structure Diagnostic where
  level : Level
  origin : String
  msg : String
  span : Span
deriving Repr, DecidableEq

/-- Association-list lookup used to model the `CHAR_TOKENS` and
`WORD_TOKENS` objects (`hasOwnProperty` + index access). -/
def assocFind {α β : Type} [DecidableEq α] : List (α × β) → α → Option β
  | [], _ => none
  | (a, b) :: r, x => if x = a then some b else assocFind r x

/-- The single-character token table.  Modelled from the spec: the grammar
module defining `CHAR_TOKENS` is not in the snapshot; section 4.1.3 describes
it as a fixed table of single-character operator and punctuation tokens.
Whitespace is not in the table, so (per the same section's final row) a
mid-line space falls through to the Unexpected-token diagnostic path, which
emits no token. -/
def CHAR_TOKENS : List (Char × LexicalToken) :=
  [ ('(', .L_PAR), (')', .R_PAR), ('[', .L_SQB), (']', .R_SQB),
    ('{', .L_BRACE), ('}', .R_BRACE), ('.', .DOT), (',', .COMMA),
    (':', .COLON), ('<', .LT), ('>', .GT), ('=', .EQUAL), ('+', .PLUS),
    ('-', .MINUS), ('*', .STAR), ('/', .SLASH), ('%', .PERCENT) ]

/-- The reserved-word table.  Modelled from the spec: the grammar module
defining `WORD_TOKENS` is not in the snapshot; the keys follow the keyword
set used throughout sections 4.2.2-4.2.5.  `less`, `greater` and `than` are
not reserved words (the snapshot's `Tokenizer.matchWord` handles them with a
dedicated guard instead). -/
def WORD_TOKENS : List (List Char × LexicalToken) :=
  [ ("if".toList, .IF), ("else".toList, .ELSE), ("new".toList, .NEW),
    ("var".toList, .VAR), ("function".toList, .FUNCTION),
    ("class".toList, .CLASS), ("import".toList, .IMPORT),
    ("extends".toList, .EXTENDS), ("static".toList, .STATIC),
    ("this".toList, .THIS), ("super".toList, .SUPER),
    ("async".toList, .ASYNC), ("instanceof".toList, .INSTANCEOF),
    ("switch".toList, .SWITCH), ("case".toList, .CASE),
    ("default".toList, .DEFAULT), ("for".toList, .FOR), ("in".toList, .IN),
    ("while".toList, .WHILE), ("repeat".toList, .REPEAT),
    ("try".toList, .TRY), ("catch".toList, .CATCH),
    ("finally".toList, .FINALLY), ("throw".toList, .THROW),
    ("return".toList, .RETURN), ("break".toList, .BREAK),
    ("continue".toList, .CONTINUE), ("fallthrough".toList, .FALLTHROUGH),
    ("is".toList, .IS), ("not".toList, .NOT), ("and".toList, .AND),
    ("or".toList, .OR), ("true".toList, .TRUE), ("false".toList, .FALSE),
    ("null".toList, .NULL) ]

/-- ASCII decimal digit, the regex class `\d`. -/
def isDigitB (c : Char) : Bool := decide ('0' ≤ c) && decide (c ≤ '9')

/-- ASCII letter, half of the regex class `[a-z]` with the `i` flag. -/
def isLetterB (c : Char) : Bool :=
  (decide ('a' ≤ c) && decide (c ≤ 'z')) || (decide ('A' ≤ c) && decide (c ≤ 'Z'))

/-- First character of a word, the regex class `[a-z_]` with the `i` flag. -/
def isWordStart (c : Char) : Bool := isLetterB c || c == '_'

/-- Word continuation character, the regex class `\w`. -/
def isWordChar (c : Char) : Bool := isWordStart c || isDigitB c

/-- Horizontal whitespace, the regex class `\s` restricted to the ASCII
characters that can occur inside a line (a line never contains `\n`). -/
def isSpaceB (c : Char) : Bool :=
  c == ' ' || c == '\t' || c == '\r' || c == '\x0b' || c == '\x0c'

/-- Greedy split: the longest Boolean-satisfying run and the remainder
(`l = (spanP p l).1 ++ (spanP p l).2`). -/
def spanP (p : Char → Bool) : List Char → List Char × List Char
  | [] => ([], [])
  | c :: r =>
    if p c then
      let pr := spanP p r
      (c :: pr.1, pr.2)
    else ([], c :: r)

/-- Split a source string on `\r?\n`, exactly as `source.split(/\r?\n/)`:
`\n` and `\r\n` separate lines, a lone `\r` stays inside its line. -/
def splitLines : List Char → List (List Char)
  | [] => [[]]
  | '\r' :: '\n' :: rest => [] :: splitLines rest
  | '\n' :: rest => [] :: splitLines rest
  | c :: rest =>
    match splitLines rest with
    | l :: ls => (c :: l) :: ls
    | [] => [[c]]

/-- `String.prototype.trimLeft`, restricted to the ASCII whitespace a line
can contain. -/
def trimLeft (l : List Char) : List Char := l.dropWhile isSpaceB

/-- `Tokenizer.getIndent`: the number of leading tab characters
(the regex `^\t+`, 0 when there is no match). -/
def getIndent (l : List Char) : Nat := (spanP (fun c => c == '\t') l).1.length

/-- The `^\d(?:\d|_)*(?:\.\d(?:\d|_)*)?` match of `Tokenizer.matchNumber`,
returning the matched characters. -/
def numberMatch : List Char → Option (List Char)
  | [] => none
  | c :: rest =>
    if isDigitB c then
      let pr := spanP (fun d => isDigitB d || d == '_') rest
      match pr.2 with
      | '.' :: d2 :: r3 =>
        if isDigitB d2 then
          some (c :: pr.1 ++ '.' :: d2 :: (spanP (fun d => isDigitB d || d == '_') r3).1)
        else some (c :: pr.1)
      | _ => some (c :: pr.1)
    else none

/-- Body of a string literal: the characters consumed after the opening
quote by `(?:[^'\\]|\\.)*'`, including the closing quote.  The regex is
deterministic: a backslash always escapes the next character and an
unescaped quote always closes the literal. -/
def stringBody : List Char → Option (List Char)
  | [] => none
  | '\'' :: _ => some ['\'']
  | '\\' :: c :: rest => (stringBody rest).map (fun b => '\\' :: c :: b)
  | '\\' :: [] => none
  | c :: rest => (stringBody rest).map (fun b => c :: b)

/-- The `^'(?:[^'\\]|\\.)*'` match of `Tokenizer.matchString`. -/
def stringMatch : List Char → Option (List Char)
  | '\'' :: rest => (stringBody rest).map (fun b => '\'' :: b)
  | _ => none

/-- The `^[a-z_]\w*/i` match at the start of the remaining characters. -/
def wordMatch : List Char → Option (List Char)
  | [] => none
  | c :: rest =>
    if isWordStart c then some (c :: (spanP isWordChar rest).1) else none

/-- The `^is\s+(not|(?:(less|greater)\s+than))` match of
`Tokenizer.matchWord`, returning the full matched lexeme and the resulting
token kind (`IS_NOT`, `IS_LESS_THAN` or `IS_GREATER_THAN`). -/
def comparisonMatch (chars : List Char) : Option (List Char × LexicalToken) :=
  match chars with
  | 'i' :: 's' :: rest =>
    if (spanP isSpaceB rest).1 = [] then none
    else if ("not".toList).isPrefixOf (spanP isSpaceB rest).2 then
      some ('i' :: 's' :: (spanP isSpaceB rest).1 ++ "not".toList, .IS_NOT)
    else if ("less".toList).isPrefixOf (spanP isSpaceB rest).2 then
      if (spanP isSpaceB ((spanP isSpaceB rest).2.drop 4)).1 = [] then none
      else if ("than".toList).isPrefixOf
          (spanP isSpaceB ((spanP isSpaceB rest).2.drop 4)).2 then
        some ('i' :: 's' :: (spanP isSpaceB rest).1 ++ "less".toList ++
          (spanP isSpaceB ((spanP isSpaceB rest).2.drop 4)).1 ++ "than".toList,
          .IS_LESS_THAN)
      else none
    else if ("greater".toList).isPrefixOf (spanP isSpaceB rest).2 then
      if (spanP isSpaceB ((spanP isSpaceB rest).2.drop 7)).1 = [] then none
      else if ("than".toList).isPrefixOf
          (spanP isSpaceB ((spanP isSpaceB rest).2.drop 7)).2 then
        some ('i' :: 's' :: (spanP isSpaceB rest).1 ++ "greater".toList ++
          (spanP isSpaceB ((spanP isSpaceB rest).2.drop 7)).1 ++ "than".toList,
          .IS_GREATER_THAN)
      else none
    else none
  | _ => none

/-- The tokenizer's mutable state: collected tokens, out-of-band comments,
diagnostics and the running indent counter, as the private fields of the
`Tokenizer` class. -/
structure TokSt where
  tokens : List Token := []
  comments : List Token := []
  diagnostics : List Diagnostic := []
  indent : Nat := 0
deriving Repr, DecidableEq

/-- Append one token (`this.tokens.push(...)`). -/
def pushTok (st : TokSt) (t : Token) : TokSt :=
  { st with tokens := st.tokens ++ [t] }

/-- A single quote character, used to reproduce diagnostic messages. -/
def sq : String := String.mk ['\'']

/-- The message of `Unexpected token TS-template-quoting the char`. -/
def unexpectedMsg (c : Char) : String :=
  "Unexpected token " ++ sq ++ String.mk [c] ++ sq

/-- The bare-word diagnostic messages of `Tokenizer.matchWord`. -/
def bareWordMsg (w : List Char) : String :=
  if w = "than".toList then
    sq ++ "than" ++ sq ++ " must come after " ++ sq ++ "is less" ++ sq ++
      " or " ++ sq ++ "is greater" ++ sq ++ ". Make sure it" ++ sq ++
      "s on the same line"
  else
    sq ++ String.mk w ++ sq ++ " must come after " ++ sq ++ "is" ++ sq ++
      ". Make sure it" ++ sq ++ "s on the same line"

/-- `Tokenizer.error`: record an ERROR diagnostic spanning the invalid
lexeme and return the number of characters to skip (its length). -/
def errTok (msg : String) (lexeme : List Char) (li col : Nat) (st : TokSt) :
    TokSt × Nat :=
  ({ st with diagnostics :=
      st.diagnostics ++ [(⟨Level.ERROR, "tokenizer", msg, mkSpan li col (col + lexeme.length)⟩ : Diagnostic)] },
   lexeme.length)

/-- `Tokenizer.matchNumber`: push a NUMBER token when the number regex
matches and return the matched length (0 otherwise). -/
def matchNumber (chars : List Char) (li col : Nat) (st : TokSt) : TokSt × Nat :=
  match numberMatch chars with
  | some m => (pushTok st ⟨.NUMBER, m, mkSpan li col (col + m.length)⟩, m.length)
  | none => (st, 0)

/-- `Tokenizer.matchString`: push a STRING token when the string regex
matches and return the matched length (0 otherwise). -/
def matchString (chars : List Char) (li col : Nat) (st : TokSt) : TokSt × Nat :=
  match stringMatch chars with
  | some m => (pushTok st ⟨.STRING, m, mkSpan li col (col + m.length)⟩, m.length)
  | none => (st, 0)

/-- `Tokenizer.matchComment`: the comment lasts to the end of the line and
goes into the out-of-band `comments` list. -/
def matchComment (chars : List Char) (li col : Nat) (st : TokSt) : TokSt × Nat :=
  ({ st with comments :=
      st.comments ++ [(⟨.COMMENT, chars, mkSpan li col (col + chars.length)⟩ : Token)] },
   chars.length)

/-- The token kind of a word lexeme: its reserved-word kind when it is in
`WORD_TOKENS`, IDENTIFIER otherwise. -/
def wordType (w : List Char) : LexicalToken :=
  match assocFind WORD_TOKENS w with
  | some k => k
  | none => .IDENTIFIER

/-- `Tokenizer.matchWord`: reject the bare words `less`/`greater`/`than`
with a diagnostic, attempt the multi-word comparison operator when the word
is exactly `is`, then push one token spanning the lexeme (whose kind comes
from the reserved-word table). -/
def matchWord (w chars : List Char) (li col : Nat) (st : TokSt) : TokSt × Nat :=
  if w = "less".toList ∨ w = "greater".toList ∨ w = "than".toList then
    errTok (bareWordMsg w) w li col st
  else if w = "is".toList then
    match comparisonMatch chars with
    | some (lex, k) =>
      (pushTok st ⟨k, lex, mkSpan li col (col + lex.length)⟩, lex.length)
    | none =>
      (pushTok st ⟨wordType w, w, mkSpan li col (col + w.length)⟩, w.length)
  else (pushTok st ⟨wordType w, w, mkSpan li col (col + w.length)⟩, w.length)

/-- The matcher dispatch in the body of the column loop of
`Tokenizer.scanLine`: number, string and comment literals and words, given
the current character; anything else matches nothing (length 0). -/
def scanInner (line : List Char) (li col : Nat) (c : Char) (st : TokSt) :
    TokSt × Nat :=
  if isDigitB c then matchNumber (line.drop col) li col st
  else if c = '\'' then matchString (line.drop col) li col st
  else if c = '#' then matchComment (line.drop col) li col st
  else
    match wordMatch (line.drop col) with
    | some w => matchWord w (line.drop col) li col st
    | none => (st, 0)

/-- The column loop of `Tokenizer.scanLine` (`while (colIndex < line.length)`):
single-character table tokens first, the matcher dispatch otherwise, and the
Unexpected-token diagnostic (advancing one column) when nothing matched.
The loop advances at least one column per iteration, so the `line.length + 1`
fuel `scanLine` passes always suffices; running out of fuel would merely stop
the scan early. -/
def scanCols (line : List Char) (li : Nat) : Nat → Nat → TokSt → TokSt
  | _, 0, st => st
  | col, fuel + 1, st =>
    if h : col < line.length then
      match assocFind CHAR_TOKENS (line.get ⟨col, h⟩) with
      | some k =>
        scanCols line li (col + 1) fuel
          (pushTok st ⟨k, [line.get ⟨col, h⟩], mkSpan li col (col + 1)⟩)
      | none =>
        if 0 < (scanInner line li col (line.get ⟨col, h⟩) st).2 then
          scanCols line li (col + (scanInner line li col (line.get ⟨col, h⟩) st).2)
            fuel (scanInner line li col (line.get ⟨col, h⟩) st).1
        else
          scanCols line li (col + 1) fuel
            (errTok (unexpectedMsg (line.get ⟨col, h⟩)) [line.get ⟨col, h⟩] li col
              (scanInner line li col (line.get ⟨col, h⟩) st).1).1
    else st

/-- `Tokenizer.addIndentTokens`: emit the difference between the line's
indent and the running indent as INDENT (lexeme `"\t"`) or OUTDENT
(lexeme `""`) tokens. -/
def addIndentTokens (li ind : Nat) (st : TokSt) : TokSt :=
  if st.indent < ind then
    { st with tokens := st.tokens ++
        List.replicate (ind - st.indent) (⟨.INDENT, ['\t'], mkSpan li 0 (ind - st.indent)⟩ : Token) }
  else if ind < st.indent then
    { st with tokens := st.tokens ++
        List.replicate (st.indent - ind) (⟨.OUTDENT, [], mkSpan li 0 ind⟩ : Token) }
  else st

/-- `Tokenizer.scanLine`: skip blank lines, capture whole-line comments
out-of-band, emit indent tokens, scan the columns, and terminate every
non-blank non-comment line with a NEWLINE token of lexeme `"\n"`. -/
def scanLine (line : List Char) (li : Nat) (st : TokSt) : TokSt :=
  if (trimLeft line).length = 0 then st
  else if (trimLeft line).head? = some '#' then
    { st with comments := st.comments ++
        [(⟨.COMMENT, trimLeft line,
          mkSpan li (line.length - (trimLeft line).length) line.length⟩ : Token)] }
  else
    pushTok
      (scanCols line li (getIndent line) (line.length + 1)
        { addIndentTokens li (getIndent line) st with indent := getIndent line })
      ⟨.NEWLINE, ['\n'], mkSpan li line.length (line.length + 1)⟩

/-- The `for` loop of `Tokenizer.tokenize` over the line indices: each line
is scanned together with its index, in order. -/
def scanFrom : List (List Char) → Nat → TokSt → TokSt
  | [], _, st => st
  | l :: rest, i, st => scanFrom rest (i + 1) (scanLine l i st)

/-- `Tokenizer.tokenize`: scan every line, close the remaining indentation
with OUTDENT tokens and append the final EOF token (whose span sits just
past the end of the last line). -/
def tokenize (source : List Char) : TokSt :=
  pushTok
    { scanFrom (splitLines source) 0 {} with
      tokens := (scanFrom (splitLines source) 0 {}).tokens ++
        List.replicate (scanFrom (splitLines source) 0 {}).indent
          (⟨.OUTDENT, [],
            mkSpan ((splitLines source).length - 1) 0
              (scanFrom (splitLines source) 0 {}).indent⟩ : Token) }
    ⟨.EOF, [],
      mkSpan ((splitLines source).length - 1)
        ((splitLines source).getLastD []).length
        (((splitLines source).getLastD []).length + 1)⟩

/-! ## AST, linter rule, and the Pratt parser -/

/-- A parsed type annotation (`VariableType`).  Modelled from the spec,
section 4.2.6: a dotted identifier path with optional generic arguments. -/
inductive VariableType where
  | mk (path : List Token) (generics : List VariableType) (span : Span)

/-- AST nodes.  Modelled from the spec (section 3.3 node families) and the
snapshot's `SyntacticToken.ts`: one constructor per node class, each carrying
its span.  `literal` holds its value `Token`, as the snapshot's call tests
access `object.value.lexeme`.  Statement and declaration constructors not
exercised by any claim carry only the payload the linter rule inspects. -/
inductive Node where
  | literal (value : Token) (span : Span)
  | identifierE (ident : Token) (span : Span)
  | thisE (span : Span)
  | superE (span : Span)
  | unary (op : Token) (operand : Node) (span : Span)
  | binary (left : Node) (op : Token) (right : Node) (span : Span)
  | wrapped (expr : Node) (span : Span)
  | call (object : Node) (params : List Node) (span : Span)
  | indexE (object : Node) (idx : Node) (span : Span)
  | member (object : Node) (property : Token) (span : Span)
  | newE (object : Node) (genericArgs : List VariableType) (params : List Node) (span : Span)
  | instanceOf (left : Node) (right : VariableType) (span : Span)
  | asyncE (expr : Node) (span : Span)
  | arrayE (content : List Node) (span : Span)
  | objectE (props : List (Token × Node)) (span : Span)
  | exprStmt (expr : Node) (span : Span)
  | returnStmt (span : Span)
  | breakStmt (span : Span)
  | variableDecl (identifier : Token) (span : Span)
  | emptyVariableDecl (identifier : Token) (span : Span)
  | functionDecl (identifier : Token) (span : Span)
  | classDecl (identifier : Token) (span : Span)
  | importDecl (span : Span)

/-- The span of a node (`Node.span` in `Node.ts`). -/
def Node.span : Node → Span
  | .literal _ sp => sp
  | .identifierE _ sp => sp
  | .thisE sp => sp
  | .superE sp => sp
  | .unary _ _ sp => sp
  | .binary _ _ _ sp => sp
  | .wrapped _ sp => sp
  | .call _ _ sp => sp
  | .indexE _ _ sp => sp
  | .member _ _ sp => sp
  | .newE _ _ _ sp => sp
  | .instanceOf _ _ sp => sp
  | .asyncE _ sp => sp
  | .arrayE _ sp => sp
  | .objectE _ sp => sp
  | .exprStmt _ sp => sp
  | .returnStmt sp => sp
  | .breakStmt sp => sp
  | .variableDecl _ sp => sp
  | .emptyVariableDecl _ sp => sp
  | .functionDecl _ sp => sp
  | .classDecl _ sp => sp
  | .importDecl sp => sp

/-- `grammar.isDeclaration`.  Modelled from the spec: the grammar helper is
not in the snapshot; section 3.3 lists the declaration family as
`VariableDecl`, `EmptyVariableDecl`, `FunctionDecl`, `ClassDecl`,
`ImportDecl`. -/
def isDeclaration : Node → Bool
  | .variableDecl _ _ => true
  | .emptyVariableDecl _ _ => true
  | .functionDecl _ _ => true
  | .classDecl _ _ => true
  | .importDecl _ => true
  | _ => false

/-- One entry of a `ClassDeclaration` body: the rule in the snapshot reads
`prop.value` from each entry of `staticBody` / `instanceBody`. -/
structure ClassProp where
  value : Node

/-- A diagnostic produced through a linter rule's bound `report`. -/
structure Report where
  msg : String
  span : Span

/-- The message reported by the `declarationsInClass` rule. -/
def declMsg : String := "You can only put declarations in a class body"

/-- The `checkNode` helper of the `declarationsInClass` rule: report when
the node is not a declaration. -/
def checkNodeReport (n : Node) : List Report :=
  if isDeclaration n then [] else [⟨declMsg, n.span⟩]

/-- The `declarationsInClass` rule's `ClassDeclaration` callback: check the
value of every entry of `staticBody`, then of `instanceBody`, in order,
collecting the reports. -/
def declarationsInClassReports (staticBody instanceBody : List ClassProp) :
    List Report :=
  (staticBody.map (fun p => checkNodeReport p.value)).flatten ++
    (instanceBody.map (fun p => checkNodeReport p.value)).flatten

/-! ### The Pratt parser

The `Parser` class, its expression and statement handlers (except `newExpr`)
and `parse-utils.ts` are not in the snapshot; the engine below is modelled
from the specification, sections 4.2.1-4.2.5, restricted to the construct
families the claims exercise (expression statements; every prefix and infix
expression form).  Two modelling decisions pinned by in-snapshot code:

* an `IDENTIFIER` token parses to a `Literal` node holding the token, as
  asserted by the snapshot's own call tests
  (`expect(object.type).to.equal(SyntacticToken.LITERAL)` with
  `object.value.lexeme === 'fn'` for the callee of `fn()`);
* `parsePrecedence level` consumes a prefix form and then infix forms
  binding strictly tighter than `level`; at `OP11` no infix form binds, so
  the call in `newExpr` parses exactly one prefix form — which is what makes
  `newExpr`'s explicit member-chain loop and its following `consume(L_PAR)`
  reachable.

Error recovery (spec section 4.2.7 panic-mode sync) is modelled as a
short-circuiting `Except`: the claims under study only concern successful
parses and the empty token list.  Recursion uses explicit fuel; `parseTokens`
passes more than any input can consume, and every theorem about a successful
parse quantifies over the fuel. -/

/-- Parser cursor state over the token list. -/
structure PState where
  tokens : List Token
  index : Nat
deriving Repr, DecidableEq

/-- Fallback token for reads past the end of the stream (the real parser
never reads past its final EOF). -/
def eofFallback : Token := ⟨.EOF, [], mkSpan 0 0 1⟩

/-- `Parser.peek`. -/
def peekT (s : PState) : Token := s.tokens.getD s.index eofFallback

/-- `Parser.previous`. -/
def prevT (s : PState) : Token := s.tokens.getD (s.index - 1) eofFallback

/-- `Parser.advance`. -/
def advanceP (s : PState) : PState := { s with index := s.index + 1 }

/-- `Parser.match`: consume the current token when its kind matches. -/
def matchK (s : PState) (k : LexicalToken) : Bool × PState :=
  if (peekT s).kind = k then (true, advanceP s) else (false, s)

/-- The skip loop of `Parser.ignoreNewline`, with fuel: past the end of the
stream `peekT` is the EOF fallback, so `s.tokens.length - s.index` steps
always suffice. -/
def ignoreNLAux : Nat → PState → PState
  | 0, s => s
  | fuel + 1, s =>
    if (peekT s).kind = .NEWLINE then ignoreNLAux fuel (advanceP s) else s

/-- `Parser.ignoreNewline`: skip a run of NEWLINE tokens. -/
def ignoreNL (s : PState) : PState := ignoreNLAux (s.tokens.length - s.index) s

/-- `Parser.matchIgnoreNewline`: look past a run of NEWLINEs; on a kind
match consume the newlines and the token, otherwise leave the cursor. -/
def matchIgnoreNL (k : LexicalToken) (s : PState) : Bool × PState :=
  let s2 := ignoreNL s
  if (peekT s2).kind = k then (true, advanceP s2) else (false, s)

/-- `Parser.consume`: expect a token kind; on mismatch produce the parser
diagnostic (modelled as a short-circuit). -/
def consumeK (k : LexicalToken) (msg : String) (s : PState) :
    Except Diagnostic (Token × PState) :=
  if (peekT s).kind = k then .ok (peekT s, advanceP s)
  else .error ⟨Level.ERROR, "parser", msg, (peekT s).span⟩

/-- Model artifact: the diagnostic produced when the recursion fuel runs
out (never reached with the fuel `parseTokens` supplies). -/
def fuelDiag : Diagnostic := ⟨Level.ERROR, "parser", "out of fuel", mkSpan 0 0 0⟩

/-- The infix rows of the Pratt table (spec section 4.2.2): each token kind
that can start an infix form, with its precedence.  Assignment is omitted:
no claim exercises it. -/
def infixPrecOf : LexicalToken → Option Nat
  | .OR => some 2
  | .AND => some 3
  | .IS => some 4
  | .IS_NOT => some 4
  | .LT => some 5
  | .GT => some 5
  | .IS_LESS_THAN => some 5
  | .IS_GREATER_THAN => some 5
  | .PLUS => some 6
  | .MINUS => some 6
  | .STAR => some 7
  | .SLASH => some 7
  | .PERCENT => some 7
  | .INSTANCEOF => some 10
  | .L_PAR => some 11
  | .L_SQB => some 11
  | .DOT => some 11
  | _ => none

/-- `memberExpr` (its source file is referenced by `newExpr` but not in the
snapshot).  Modelled from the spec, section 4.2.4: after `.` expect an
IDENTIFIER and produce a `Member` node spanning from the object. -/
def memberExpr (obj : Node) (_dot : Token) (s : PState) :
    Except Diagnostic (Node × PState) :=
  match consumeK .IDENTIFIER "Expected an identifier after the ." s with
  | .error e => .error e
  | .ok (prop, s2) => .ok (.member obj prop ⟨obj.span.start, prop.span.stop⟩, s2)

mutual

/-- `Parser.parsePrecedence` (modelled from the spec, section 4.2.2): a
prefix form, then infix forms binding strictly tighter than the request. -/
def parsePrecedence : Nat → Nat → PState → Except Diagnostic (Node × PState)
  | 0, _, _ => .error fuelDiag
  | fuel + 1, prec, s =>
    match parsePrefixForm fuel s with
    | .error e => .error e
    | .ok (left, s1) => infixRun fuel prec left s1

/-- The prefix dispatch of the Pratt table (spec section 4.2.3). -/
def parsePrefixForm : Nat → PState → Except Diagnostic (Node × PState)
  | 0, _ => .error fuelDiag
  | fuel + 1, s =>
    match (peekT s).kind with
    | .NUMBER | .STRING | .TRUE | .FALSE | .NULL =>
      .ok (.literal (peekT s) (peekT s).span, advanceP s)
    | .IDENTIFIER => .ok (.literal (peekT s) (peekT s).span, advanceP s)
    | .THIS => .ok (.thisE (peekT s).span, advanceP s)
    | .SUPER => .ok (.superE (peekT s).span, advanceP s)
    | .L_PAR =>
      match parsePrecedence fuel 1 (advanceP s) with
      | .error e => .error e
      | .ok (e, s2) =>
        match consumeK .R_PAR "Expected a closing parenthesis" s2 with
        | .error er => .error er
        | .ok (_, s3) =>
          .ok (.wrapped e ⟨(peekT s).span.start, (prevT s3).span.stop⟩, s3)
    | .L_SQB =>
      match matchExpressionList fuel .R_SQB (advanceP s) with
      | .error e => .error e
      | .ok (elems, s2) =>
        .ok (.arrayE elems ⟨(peekT s).span.start, (prevT s2).span.stop⟩, s2)
    | .L_BRACE =>
      match objectTail fuel (advanceP s) with
      | .error e => .error e
      | .ok (props, s2) =>
        .ok (.objectE props ⟨(peekT s).span.start, (prevT s2).span.stop⟩, s2)
    | .NEW => newExpr fuel (peekT s) (advanceP s)
    | .ASYNC =>
      match parsePrecedence fuel 11 (advanceP s) with
      | .error e => .error e
      | .ok (e, s2) =>
        .ok (.asyncE e ⟨(peekT s).span.start, (prevT s2).span.stop⟩, s2)
    | .MINUS | .NOT =>
      match parsePrecedence fuel 9 (advanceP s) with
      | .error e => .error e
      | .ok (e, s2) =>
        .ok (.unary (peekT s) e ⟨(peekT s).span.start, (prevT s2).span.stop⟩, s2)
    | _ => .error ⟨Level.ERROR, "parser", "Expected an expression", (peekT s).span⟩

/-- The infix loop of `parsePrecedence`. -/
def infixRun : Nat → Nat → Node → PState → Except Diagnostic (Node × PState)
  | 0, _, _, _ => .error fuelDiag
  | fuel + 1, prec, left, s =>
    match infixPrecOf (peekT s).kind with
    | some p =>
      if prec < p then
        match parseInfixForm fuel left s with
        | .error e => .error e
        | .ok (left2, s2) => infixRun fuel prec left2 s2
      else .ok (left, s)
    | none => .ok (left, s)

/-- The infix dispatch of the Pratt table (spec section 4.2.4). -/
def parseInfixForm : Nat → Node → PState → Except Diagnostic (Node × PState)
  | 0, _, _ => .error fuelDiag
  | fuel + 1, left, s =>
    match (peekT s).kind with
    | .L_PAR =>
      match matchExpressionList fuel .R_PAR (advanceP s) with
      | .error e => .error e
      | .ok (params, s2) =>
        .ok (.call left params ⟨left.span.start, (prevT s2).span.stop⟩, s2)
    | .L_SQB =>
      match parsePrecedence fuel 1 (advanceP s) with
      | .error e => .error e
      | .ok (e, s2) =>
        match consumeK .R_SQB "Expected a closing bracket" s2 with
        | .error er => .error er
        | .ok (_, s3) =>
          .ok (.indexE left e ⟨left.span.start, (prevT s3).span.stop⟩, s3)
    | .DOT => memberExpr left (peekT s) (advanceP s)
    | .INSTANCEOF =>
      match matchTypeDecl fuel (advanceP s) with
      | .error e => .error e
      | .ok (t, s2) =>
        .ok (.instanceOf left t ⟨left.span.start, (prevT s2).span.stop⟩, s2)
    | _ =>
      match parsePrecedence fuel ((infixPrecOf (peekT s).kind).getD 0) (advanceP s) with
      | .error e => .error e
      | .ok (right, s2) =>
        .ok (.binary left (peekT s) right ⟨left.span.start, (prevT s2).span.stop⟩, s2)

/-- `newExpr` from the snapshot (`newExpr.ts`): skip newlines, parse the
object at OP11 (one prefix form, since no infix form binds above OP11),
fold a member chain over explicit dots, parse optional generic arguments
after `<`, then require `(` and the parameter list. -/
def newExpr : Nat → Token → PState → Except Diagnostic (Node × PState)
  | 0, _, _ => .error fuelDiag
  | fuel + 1, pfx, s0 =>
    match parsePrecedence fuel 11 (ignoreNL s0) with
    | .error e => .error e
    | .ok (obj0, sa) =>
      match newMemberLoop fuel obj0 (ignoreNL sa) with
      | .error e => .error e
      | .ok (obj, sb) =>
        match newGenericArgs fuel (ignoreNL sb) with
        | .error e => .error e
        | .ok (genericArgs, sd) =>
          match consumeK .L_PAR "Expected a parenthesis after the class" sd with
          | .error e => .error e
          | .ok (_, se) =>
            match matchExpressionList fuel .R_PAR se with
            | .error e => .error e
            | .ok (params, sf) =>
              .ok (.newE obj genericArgs params ⟨pfx.span.start, (prevT sf).span.stop⟩, sf)

/-- The `while (parser.match(DOT))` loop of `newExpr`. -/
def newMemberLoop : Nat → Node → PState → Except Diagnostic (Node × PState)
  | 0, _, _ => .error fuelDiag
  | fuel + 1, obj, s =>
    match matchK s .DOT with
    | (true, s1) =>
      match memberExpr obj (prevT s1) s1 with
      | .error e => .error e
      | .ok (obj2, s2) => newMemberLoop fuel obj2 s2
    | (false, s1) => .ok (obj, s1)

/-- The `if (parser.match(LT))` step of `newExpr`: optional generic
arguments, with trailing newlines skipped after the list. -/
def newGenericArgs : Nat → PState → Except Diagnostic (List VariableType × PState)
  | 0, _ => .error fuelDiag
  | fuel + 1, s =>
    match matchK s .LT with
    | (true, s1) =>
      match matchGenericArgs fuel s1 with
      | .error e => .error e
      | .ok (ga, s2) => .ok (ga, ignoreNL s2)
    | (false, s1) => .ok ([], s1)

/-- `matchExpressionList` (modelled from the spec): a possibly empty
comma-separated expression list terminated by the given closing token,
newline-tolerant inside the brackets. -/
def matchExpressionList : Nat → LexicalToken → PState →
    Except Diagnostic (List Node × PState)
  | 0, _, _ => .error fuelDiag
  | fuel + 1, endK, s0 =>
    match matchK (ignoreNL s0) endK with
    | (true, s1) => .ok ([], s1)
    | (false, s1) => exprListTail fuel endK [] s1

/-- The element loop of `matchExpressionList`. -/
def exprListTail : Nat → LexicalToken → List Node → PState →
    Except Diagnostic (List Node × PState)
  | 0, _, _, _ => .error fuelDiag
  | fuel + 1, endK, acc, s0 =>
    match parsePrecedence fuel 1 s0 with
    | .error e => .error e
    | .ok (e, s) =>
      match matchK (ignoreNL s) .COMMA with
      | (true, s2) => exprListTail fuel endK (acc ++ [e]) (ignoreNL s2)
      | (false, s2) =>
        match consumeK endK "Expected the end of the list" s2 with
        | .error er => .error er
        | .ok (_, s3) => .ok (acc ++ [e], s3)

/-- The `identifier : expr` pair loop of an object literal (modelled from
the spec, section 4.2.3). -/
def objectTail : Nat → PState → Except Diagnostic (List (Token × Node) × PState)
  | 0, _ => .error fuelDiag
  | fuel + 1, s0 =>
    match matchK (ignoreNL s0) .R_BRACE with
    | (true, s1) => .ok ([], s1)
    | (false, s1) => objectPairsTail fuel [] s1

/-- The element loop of an object literal. -/
def objectPairsTail : Nat → List (Token × Node) → PState →
    Except Diagnostic (List (Token × Node) × PState)
  | 0, _, _ => .error fuelDiag
  | fuel + 1, acc, s0 =>
    match consumeK .IDENTIFIER "Expected a property name" s0 with
    | .error e => .error e
    | .ok (key, sa) =>
      match consumeK .COLON "Expected a colon" sa with
      | .error e => .error e
      | .ok (_, sb) =>
        match parsePrecedence fuel 1 sb with
        | .error e => .error e
        | .ok (e, sc) =>
          match matchK (ignoreNL sc) .COMMA with
          | (true, s2) => objectPairsTail fuel (acc ++ [(key, e)]) (ignoreNL s2)
          | (false, s2) =>
            match consumeK .R_BRACE "Expected a closing brace" s2 with
            | .error er => .error er
            | .ok (_, s3) => .ok (acc ++ [(key, e)], s3)

/-- `matchGenericArgs` (modelled from the spec, section 4.2.6): a
comma-separated type list terminated by `>`. -/
def matchGenericArgs : Nat → PState → Except Diagnostic (List VariableType × PState)
  | 0, _ => .error fuelDiag
  | fuel + 1, s =>
    match matchTypeDecl fuel s with
    | .error e => .error e
    | .ok (t, s2) => genericTail fuel [t] s2

/-- The element loop of `matchGenericArgs`. -/
def genericTail : Nat → List VariableType → PState →
    Except Diagnostic (List VariableType × PState)
  | 0, _, _ => .error fuelDiag
  | fuel + 1, acc, s =>
    match matchK s .COMMA with
    | (true, s1) =>
      match matchTypeDecl fuel s1 with
      | .error e => .error e
      | .ok (t, s2) => genericTail fuel (acc ++ [t]) s2
    | (false, s1) =>
      match consumeK .GT "Expected the end of the type list" s1 with
      | .error e => .error e
      | .ok (_, s2) => .ok (acc, s2)

/-- `matchTypeDecl` (modelled from the spec, section 4.2.6):
`IDENT ('.' IDENT)* ('<' TypeList '>')?`. -/
def matchTypeDecl : Nat → PState → Except Diagnostic (VariableType × PState)
  | 0, _ => .error fuelDiag
  | fuel + 1, s =>
    match consumeK .IDENTIFIER "Expected a type" s with
    | .error e => .error e
    | .ok (id, s2) =>
      match typePathTail fuel [id] s2 with
      | .error e => .error e
      | .ok (path, s3) =>
        match matchK s3 .LT with
        | (true, s4) =>
          match matchGenericArgs fuel s4 with
          | .error e => .error e
          | .ok (gens, s5) =>
            .ok (VariableType.mk path gens ⟨id.span.start, (prevT s5).span.stop⟩, s5)
        | (false, s4) =>
          .ok (VariableType.mk path [] ⟨id.span.start, (prevT s4).span.stop⟩, s4)

/-- The dotted-path loop of `matchTypeDecl`. -/
def typePathTail : Nat → List Token → PState →
    Except Diagnostic (List Token × PState)
  | 0, _, _ => .error fuelDiag
  | fuel + 1, acc, s =>
    match matchK s .DOT with
    | (true, s1) =>
      match consumeK .IDENTIFIER "Expected an identifier after the ." s1 with
      | .error e => .error e
      | .ok (id, s2) => typePathTail fuel (acc ++ [id]) s2
    | (false, s1) => .ok (acc, s1)

end

/-- A parsed program: its ordered top-level nodes (spec section 3.3). -/
structure Program where
  body : List Node

/-- The statement level (modelled from the spec, sections 4.2.1 and 4.2.5,
restricted to the forms the claims exercise): a statement expression parsed
from OP1, terminated by a NEWLINE (or the final EOF). -/
def statementM : Nat → PState → Except Diagnostic (Node × PState)
  | 0, _ => .error fuelDiag
  | fuel + 1, s0 => do
    let (e, s) ← parsePrecedence fuel 1 s0
    match (peekT s).kind with
    | .NEWLINE => .ok (.exprStmt e e.span, advanceP s)
    | .EOF => .ok (.exprStmt e e.span, s)
    | _ => .error ⟨Level.ERROR, "parser", "Expected a newline after the statement", (peekT s).span⟩

/-- The top level (modelled from the spec): read statements until EOF. -/
def programLoop : Nat → List Node → PState → Except Diagnostic (List Node × PState)
  | 0, _, _ => .error fuelDiag
  | fuel + 1, acc, s =>
    if (peekT s).kind = .EOF then .ok (acc, advanceP s)
    else do
      let (n, s2) ← statementM fuel s
      programLoop fuel (acc ++ [n]) s2

/-- `Parser.parse` (modelled): parse a token stream into a `Program`; a
successful result carries zero parser diagnostics. -/
def parseTokens (tokens : List Token) : Except Diagnostic Program :=
  match programLoop (tokens.length * 8 + 64) [] ⟨tokens, 0⟩ with
  | .ok (body, _) => .ok ⟨body⟩
  | .error e => .error e

/-- The composed front end on a source string: tokenize, then parse the
resulting token stream, as the snapshot's `TestUtils.parse` does. -/
def parseSource (src : String) : Except Diagnostic Program :=
  parseTokens (tokenize src.toList).tokens

/-! ### Predicates used to state the claims -/

/-- The virtual token kinds: INDENT, OUTDENT, NEWLINE, EOF. -/
def virtualKind : LexicalToken → Bool
  | .INDENT | .OUTDENT | .NEWLINE | .EOF => true
  | _ => false

/-- The substring of a line between two columns (half-open). -/
def substrAt (l : List Char) (a b : Nat) : List Char := (l.drop a).take (b - a)

/-- The token's lexeme is the exact source substring at its span: the span
lies on one line, its width is the lexeme length, and the line's characters
there are the lexeme. -/
def exactLexeme (lines : List (List Char)) (t : Token) : Bool :=
  (t.span.start.line == t.span.stop.line) &&
    (t.span.stop.col == t.span.start.col + t.lexeme.length) &&
    (t.lexeme == substrAt (lines.getD t.span.start.line []) t.span.start.col t.span.stop.col)

/-- Claim C3 as stated, per token: every virtual token has an empty lexeme
and every non-virtual token's lexeme is the exact source substring. -/
def claimC3TokenOk (lines : List (List Char)) (t : Token) : Bool :=
  if virtualKind t.kind then t.lexeme == [] else exactLexeme lines t

/-- The per-token lexeme property the code actually maintains: OUTDENT and
EOF carry an empty lexeme, NEWLINE carries `"\n"`, INDENT carries `"\t"`,
and every non-virtual token's lexeme is the exact source substring at its
span. -/
def tokenLexemeOk (lines : List (List Char)) (t : Token) : Bool :=
  match t.kind with
  | .INDENT => t.lexeme == ['\t']
  | .OUTDENT => t.lexeme == []
  | .NEWLINE => t.lexeme == ['\n']
  | .EOF => t.lexeme == []
  | _ => exactLexeme lines t

/-- Count of tokens of one kind. -/
def countKind (k : LexicalToken) (ts : List Token) : Nat :=
  (ts.filter (fun t => t.kind == k)).length

/-- An `Identifier` node with the given lexeme (claim C1's wording). -/
def isIdentWithLexeme (n : Node) (lx : List Char) : Bool :=
  match n with
  | .identifierE t _ => t.lexeme == lx
  | _ => false

/-- Claim C1 as stated: the parse result is a Program whose body is exactly
one `ExpressionStmt` holding a `Call` with an empty `params` list whose
`object` is an `Identifier` node with lexeme `fn`. -/
def claimC1Holds (r : Except Diagnostic Program) : Bool :=
  match r with
  | .ok ⟨[.exprStmt e _]⟩ =>
    match e with
    | .call obj params _ => params.isEmpty && isIdentWithLexeme obj "fn".toList
    | _ => false
  | _ => false

/-- Claim C1 amended to what the code (and the snapshot's own call test)
produce: the callee is a `Literal` node whose value token has lexeme `fn`. -/
def amendedC1Holds (r : Except Diagnostic Program) : Bool :=
  match r with
  | .ok ⟨[.exprStmt e _]⟩ =>
    match e with
    | .call obj params _ =>
      params.isEmpty &&
        (match obj with
         | .literal v _ => v.lexeme == "fn".toList
         | _ => false)
    | _ => false
  | _ => false

/-- Claim C2's predicate on a `New` expression's object: an `Identifier`
node or a chain of `Member` expressions with `Identifier` leaves. -/
def identMemberChain : Node → Bool
  | .identifierE _ _ => true
  | .member obj _ _ => identMemberChain obj
  | _ => false

/-- A node produced by the prefix dispatch: one of the prefix-form
constructors (never a top-level `Call`, `Index` or `Member`). -/
def isPrefixFormNode : Node → Bool
  | .literal _ _ => true
  | .thisE _ => true
  | .superE _ => true
  | .wrapped _ _ => true
  | .arrayE _ _ => true
  | .objectE _ _ => true
  | .newE _ _ _ _ => true
  | .asyncE _ _ => true
  | .unary _ _ _ => true
  | _ => false

/-- A (possibly empty) chain of `Member` expressions over a prefix-form
leaf: what `newExpr` actually guarantees for the object of a `New`. -/
def memberChainOverPrefixForm : Node → Bool
  | .member obj _ _ => memberChainOverPrefixForm obj
  | n => isPrefixFormNode n

/-- A `New` node whose object is a member chain over a prefix-form leaf. -/
def newObjectChainOk : Node → Bool
  | .newE obj _ _ _ => memberChainOverPrefixForm obj
  | _ => false

/-- The object of the `New` expression when the parse result is a single
expression statement holding a `New` (used to exhibit counterexamples). -/
def firstNewObject (r : Except Diagnostic Program) : Option Node :=
  match r with
  | .ok ⟨[.exprStmt e _]⟩ =>
    match e with
    | .newE obj _ _ _ => some obj
    | _ => none
  | _ => none

/-- Every token the column scanner can emit: a non-virtual kind, a span on
the scanned line whose width is the lexeme length, with the lexeme a prefix
of the line's characters at its start column. -/
def emittedTok (line : List Char) (li : Nat) (t : Token) : Prop :=
  virtualKind t.kind = false ∧ t.span.start.line = li ∧ t.span.stop.line = li ∧
    t.span.stop.col = t.span.start.col + t.lexeme.length ∧
    t.lexeme <+: line.drop t.span.start.col

/-! ## Theorems -/

/-- The two halves of `spanP` reassemble the input. -/
theorem spanP_append (p : Char → Bool) (l : List Char) :
    (spanP p l).1 ++ (spanP p l).2 = l := by
  induction l with
  | nil => rfl
  | cons c r ih => by_cases h : p c <;> simp [spanP, h, ih]

/-- A successful `assocFind` returns one of the table's values. -/
theorem assocFind_val_mem {α β : Type} [DecidableEq α] (l : List (α × β))
    (x : α) (b : β) (h : assocFind l x = some b) : b ∈ l.map Prod.snd := by
  induction l with
  | nil => simp [assocFind] at h
  | cons p r ih =>
    obtain ⟨a, v⟩ := p
    by_cases hx : x = a
    · simp [assocFind, hx] at h
      simp [h]
    · simp [assocFind, hx] at h
      simpa using Or.inr (ih h)

/-- A successful `assocFind` means the query is one of the table's keys. -/
theorem assocFind_key_mem {α β : Type} [DecidableEq α] (l : List (α × β))
    (x : α) (b : β) (h : assocFind l x = some b) : x ∈ l.map Prod.fst := by
  induction l with
  | nil => simp [assocFind] at h
  | cons p r ih =>
    obtain ⟨a, v⟩ := p
    by_cases hx : x = a
    · simp [hx]
    · simp [assocFind, hx] at h
      simpa using Or.inr (ih h)

/-- `numberMatch` returns a nonempty prefix of its input. -/
theorem numberMatch_pfx (l m : List Char) (h : numberMatch l = some m) :
    m <+: l ∧ m ≠ [] := by
  match l with
  | [] => simp [numberMatch] at h
  | c :: rest =>
    simp only [numberMatch] at h
    by_cases hd : isDigitB c
    · simp only [hd, if_true] at h
      have hsplit := spanP_append (fun d => isDigitB d || d == '_') rest
      split at h
      case _ d2 r3 h2 =>
        by_cases hd2 : isDigitB d2
        · simp only [hd2, if_true, Option.some.injEq] at h
          subst h
          have h3 := spanP_append (fun d => isDigitB d || d == '_') r3
          refine ⟨⟨(spanP (fun d => isDigitB d || d == '_') r3).2, ?_⟩, by simp⟩
          simp only [List.cons_append, List.append_assoc, List.cons.injEq, true_and]
          rw [h3, ← h2, hsplit]
        · simp only [hd2, Bool.false_eq_true, if_false, Option.some.injEq] at h
          subst h
          refine ⟨⟨'.' :: d2 :: r3, ?_⟩, by simp⟩
          simp only [List.cons_append, List.cons.injEq, true_and]
          rw [← h2, hsplit]
      case _ hne =>
        simp only [Option.some.injEq] at h
        subst h
        refine ⟨⟨(spanP (fun d => isDigitB d || d == '_') rest).2, ?_⟩, by simp⟩
        simp only [List.cons_append, List.cons.injEq, true_and]
        exact hsplit
    · simp [hd] at h

/-- Bounded-length auxiliary for `stringBody_pfx`. -/
theorem stringBody_pfx_aux (n : Nat) : ∀ (l b : List Char), l.length ≤ n →
    stringBody l = some b → b <+: l ∧ b ≠ [] := by
  induction n with
  | zero =>
    intro l b hlen h
    have hnil : l = [] := List.length_eq_zero.mp (Nat.le_zero.mp hlen)
    subst hnil
    simp [stringBody] at h
  | succ n ih =>
    intro l b hlen h
    match l with
    | [] => simp [stringBody] at h
    | c :: rest =>
      by_cases hq : c = '\''
      · subst hq
        simp only [stringBody, Option.some.injEq] at h
        subst h
        exact ⟨⟨rest, rfl⟩, by simp⟩
      · by_cases hb : c = '\\'
        · subst hb
          match rest with
          | [] => simp [stringBody] at h
          | c2 :: rest2 =>
            simp only [stringBody] at h
            cases hsb : stringBody rest2 with
            | none => rw [hsb] at h; simp at h
            | some b2 =>
              rw [hsb] at h
              simp only [Option.map_some', Option.some.injEq] at h
              subst h
              obtain ⟨⟨t, ht⟩, _⟩ := ih rest2 b2 (by simp at hlen; omega) hsb
              exact ⟨⟨t, by simp [← ht]⟩, by simp⟩
        · rw [stringBody] at h
          · cases hsb : stringBody rest with
            | none => rw [hsb] at h; simp at h
            | some b2 =>
              rw [hsb] at h
              simp only [Option.map_some', Option.some.injEq] at h
              subst h
              obtain ⟨⟨t, ht⟩, _⟩ := ih rest b2 (by simp at hlen; omega) hsb
              exact ⟨⟨t, by simp [← ht]⟩, by simp⟩
          · exact hq
          · exact fun _ _ hc _ => hb hc
          · exact fun hc _ => hb hc

/-- `stringBody` returns a nonempty prefix of its input. -/
theorem stringBody_pfx (l b : List Char) (h : stringBody l = some b) :
    b <+: l ∧ b ≠ [] :=
  stringBody_pfx_aux l.length l b le_rfl h

/-- `stringMatch` returns a nonempty prefix of its input. -/
theorem stringMatch_pfx (l m : List Char) (h : stringMatch l = some m) :
    m <+: l ∧ m ≠ [] := by
  rw [stringMatch.eq_def] at h
  split at h
  · rename_i rest
    cases hsb : stringBody rest with
    | none => rw [hsb] at h; simp at h
    | some b2 =>
      rw [hsb] at h
      simp only [Option.map_some', Option.some.injEq] at h
      subst h
      obtain ⟨⟨t, ht⟩, _⟩ := stringBody_pfx rest b2 hsb
      exact ⟨⟨t, by simp [← ht]⟩, by simp⟩
  · exact absurd h (by simp)

/-- `wordMatch` returns a nonempty prefix of its input. -/
theorem wordMatch_pfx (l w : List Char) (h : wordMatch l = some w) :
    w <+: l ∧ w ≠ [] := by
  match l with
  | [] => simp [wordMatch] at h
  | c :: rest =>
    by_cases hs : isWordStart c
    · simp only [wordMatch, hs, if_true, Option.some.injEq] at h
      subst h
      refine ⟨⟨(spanP isWordChar rest).2, ?_⟩, by simp⟩
      simp [spanP_append]
    · simp [wordMatch, hs] at h

/-- A successful `wordMatch` starts with the first character of the input. -/
theorem wordMatch_head (l w : List Char) (h : wordMatch l = some w) :
    w.head? = l.head? := by
  match l with
  | [] => simp [wordMatch] at h
  | c :: rest =>
    by_cases hs : isWordStart c
    · simp only [wordMatch, hs, if_true, Option.some.injEq] at h
      subst h
      rfl
    · simp [wordMatch, hs] at h

/-- `comparisonMatch` returns a nonempty prefix of its input, and only the
three multi-word comparison kinds. -/
theorem comparisonMatch_pfx (l m : List Char) (k : LexicalToken)
    (h : comparisonMatch l = some (m, k)) :
    (m <+: l ∧ m ≠ []) ∧
      (k = .IS_NOT ∨ k = .IS_LESS_THAN ∨ k = .IS_GREATER_THAN) := by
  rw [comparisonMatch.eq_def] at h
  split at h
  case _ rest =>
    have hsp := spanP_append isSpaceB rest
    split_ifs at h
    all_goals simp only [Option.some.injEq, Prod.mk.injEq] at h
    · -- is not
      obtain ⟨hm, hk⟩ := h
      subst hm; subst hk
      have hnot : ("not".toList).isPrefixOf (spanP isSpaceB rest).2 = true := by
        assumption
      obtain ⟨t, ht⟩ := List.isPrefixOf_iff_prefix.mp hnot
      refine ⟨⟨⟨t, ?_⟩, by simp⟩, Or.inl rfl⟩
      simp only [List.cons_append, List.append_assoc, List.cons.injEq, true_and]
      rw [ht, hsp]
    · -- is less than
      obtain ⟨hm, hk⟩ := h
      subst hm; subst hk
      have hless : ("less".toList).isPrefixOf (spanP isSpaceB rest).2 = true := by
        assumption
      have hthan : ("than".toList).isPrefixOf
          (spanP isSpaceB ((spanP isSpaceB rest).2.drop 4)).2 = true := by
        assumption
      obtain ⟨t1, ht1⟩ := List.isPrefixOf_iff_prefix.mp hless
      have hd4 : (spanP isSpaceB rest).2.drop 4 = t1 := by
        rw [← ht1, show (4 : Nat) = ("less".toList).length from rfl,
          List.drop_left]
      obtain ⟨t3, ht3⟩ := List.isPrefixOf_iff_prefix.mp hthan
      have hsp2 := spanP_append isSpaceB ((spanP isSpaceB rest).2.drop 4)
      have ht1e : t1 =
          (spanP isSpaceB ((spanP isSpaceB rest).2.drop 4)).1 ++
            ("than".toList ++ t3) := by
        rw [ht3, hsp2, hd4]
      refine ⟨⟨⟨t3, ?_⟩, by simp⟩, Or.inr (Or.inl rfl)⟩
      have hrest : rest =
          (spanP isSpaceB rest).1 ++ ("less".toList ++
            ((spanP isSpaceB ((spanP isSpaceB rest).2.drop 4)).1 ++
              ("than".toList ++ t3))) := by
        conv_lhs => rw [← hsp]
        congr 1
        conv_lhs => rw [← ht1]
        congr 1
      conv_rhs => rw [hrest]
      simp [List.append_assoc]
    · -- is greater than
      obtain ⟨hm, hk⟩ := h
      subst hm; subst hk
      have hgreater : ("greater".toList).isPrefixOf (spanP isSpaceB rest).2 = true := by
        assumption
      have hthan : ("than".toList).isPrefixOf
          (spanP isSpaceB ((spanP isSpaceB rest).2.drop 7)).2 = true := by
        assumption
      obtain ⟨t1, ht1⟩ := List.isPrefixOf_iff_prefix.mp hgreater
      have hd7 : (spanP isSpaceB rest).2.drop 7 = t1 := by
        rw [← ht1, show (7 : Nat) = ("greater".toList).length from rfl,
          List.drop_left]
      obtain ⟨t3, ht3⟩ := List.isPrefixOf_iff_prefix.mp hthan
      have hsp2 := spanP_append isSpaceB ((spanP isSpaceB rest).2.drop 7)
      have ht1e : t1 =
          (spanP isSpaceB ((spanP isSpaceB rest).2.drop 7)).1 ++
            ("than".toList ++ t3) := by
        rw [ht3, hsp2, hd7]
      refine ⟨⟨⟨t3, ?_⟩, by simp⟩, Or.inr (Or.inr rfl)⟩
      have hrest : rest =
          (spanP isSpaceB rest).1 ++ ("greater".toList ++
            ((spanP isSpaceB ((spanP isSpaceB rest).2.drop 7)).1 ++
              ("than".toList ++ t3))) := by
        conv_lhs => rw [← hsp]
        congr 1
        conv_lhs => rw [← ht1]
        congr 1
      conv_rhs => rw [hrest]
      simp [List.append_assoc]
  case _ =>
    exact absurd h (by simp)

/-- No `CHAR_TOKENS` value is a virtual token kind. -/
theorem charTok_not_virtual (c : Char) (k : LexicalToken)
    (h : assocFind CHAR_TOKENS c = some k) : virtualKind k = false := by
  have hm := assocFind_val_mem _ _ _ h
  fin_cases hm <;> rfl

/-- No `WORD_TOKENS` value is a virtual token kind. -/
theorem wordTok_not_virtual (w : List Char) (k : LexicalToken)
    (h : assocFind WORD_TOKENS w = some k) : virtualKind k = false := by
  have hm := assocFind_val_mem _ _ _ h
  fin_cases hm <;> rfl

/-- `is` is the only reserved word beginning with `is`. -/
theorem wordTok_is_key (w : List Char) (k : LexicalToken)
    (h : assocFind WORD_TOKENS w = some k)
    (hpre : ("is".toList).isPrefixOf w = true) : w = "is".toList := by
  have hm := assocFind_key_mem _ _ _ h
  fin_cases hm <;> first | rfl | exact absurd hpre (by decide)

/-- `countKind` distributes over append. -/
theorem countKind_append (k : LexicalToken) (a b : List Token) :
    countKind k (a ++ b) = countKind k a + countKind k b := by
  simp [countKind, List.filter_append]

/-- `countKind` of a replicated token. -/
theorem countKind_replicate (k : LexicalToken) (n : Nat) (t : Token) :
    countKind k (List.replicate n t) = if t.kind == k then n else 0 := by
  by_cases h : t.kind == k <;>
    simp [countKind, List.filter_replicate, h]

/-- `countKind` of a singleton. -/
theorem countKind_single (k : LexicalToken) (t : Token) :
    countKind k [t] = if t.kind == k then 1 else 0 := by
  by_cases h : t.kind == k <;> simp [countKind, List.filter_cons, h]

/-- A list with no token of kind `k` counts zero. -/
theorem countKind_zero_of_not (k : LexicalToken) (ts : List Token)
    (h : ∀ t ∈ ts, t.kind ≠ k) : countKind k ts = 0 := by
  induction ts with
  | nil => rfl
  | cons t r ih =>
    have h1 : (t.kind == k) = false := by
      simpa using h t (by simp)
    simp only [countKind, List.filter_cons, h1, Bool.false_eq_true, if_false]
    exact ih (fun x hx => h x (by simp [hx]))

/-- An `emittedTok` token satisfies the per-token lexeme property. -/
theorem emittedTok_tokenLexemeOk (lines : List (List Char)) (li : Nat)
    (t : Token) (h : emittedTok (lines.getD li []) li t) :
    tokenLexemeOk lines t = true := by
  obtain ⟨kind, lexeme, ⟨⟨sl, sc⟩, ⟨el, ec⟩⟩⟩ := t
  obtain ⟨hv, hl1, hl2, hw, hpfx⟩ := h
  simp only at hl1 hl2 hw hpfx
  subst hl1
  subst hl2
  subst hw
  have htake := List.prefix_iff_eq_take.mp hpfx
  cases kind <;>
    first
      | (exfalso; revert hv; simp [virtualKind]; done)
      | (simp only [tokenLexemeOk, exactLexeme, substrAt,
          Nat.add_sub_cancel_left, Bool.and_eq_true, beq_iff_eq]
         simpa using htake)

/-- `scanInner` only appends tokens scanned from the current column, never
touches the indent counter, and leaves the state unchanged when it matches
nothing. -/
theorem scanInner_spec (line : List Char) (li col : Nat) (c : Char)
    (st : TokSt) (hcol : col < line.length) :
    ∃ extra, (scanInner line li col c st).1.tokens = st.tokens ++ extra ∧
      (∀ t ∈ extra, emittedTok line li t) ∧
      (scanInner line li col c st).1.indent = st.indent ∧
      ((scanInner line li col c st).2 = 0 →
        (scanInner line li col c st).1 = st) := by
  rw [scanInner]
  split_ifs with h1 h2 h3
  · -- number
    rw [matchNumber.eq_def]
    cases hnm : numberMatch (line.drop col) with
    | none => exact ⟨[], by simp, by simp, by simp, by simp⟩
    | some m =>
      obtain ⟨hp, hne⟩ := numberMatch_pfx _ _ hnm
      refine ⟨[⟨.NUMBER, m, mkSpan li col (col + m.length)⟩], by simp [pushTok],
        ?_, by simp [pushTok], ?_⟩
      · intro t ht
        simp only [List.mem_singleton] at ht
        subst ht
        exact ⟨rfl, rfl, rfl, rfl, hp⟩
      · intro hzero
        simp only at hzero
        exact absurd (List.length_eq_zero.mp hzero) hne
  · -- string
    rw [matchString.eq_def]
    cases hsm : stringMatch (line.drop col) with
    | none => exact ⟨[], by simp, by simp, by simp, by simp⟩
    | some m =>
      obtain ⟨hp, hne⟩ := stringMatch_pfx _ _ hsm
      refine ⟨[⟨.STRING, m, mkSpan li col (col + m.length)⟩], by simp [pushTok],
        ?_, by simp [pushTok], ?_⟩
      · intro t ht
        simp only [List.mem_singleton] at ht
        subst ht
        exact ⟨rfl, rfl, rfl, rfl, hp⟩
      · intro hzero
        simp only at hzero
        exact absurd (List.length_eq_zero.mp hzero) hne
  · -- comment: only the comments list changes, and it is nonempty
    refine ⟨[], by simp [matchComment], by simp, by simp [matchComment], ?_⟩
    intro hzero
    simp only [matchComment, List.length_drop] at hzero
    omega
  · -- word
    cases hwm : wordMatch (line.drop col) with
    | none => exact ⟨[], by simp, by simp, by simp, by simp⟩
    | some w =>
      obtain ⟨hp, hne⟩ := wordMatch_pfx _ _ hwm
      simp only [matchWord]
      split_ifs with hguard his
      · -- bare less/greater/than: diagnostic only
        refine ⟨[], by simp [errTok], by simp, by simp [errTok], ?_⟩
        intro hzero
        simp only [errTok] at hzero
        exact absurd (List.length_eq_zero.mp hzero) hne
      · -- the word is exactly `is`
        cases hcm : comparisonMatch (line.drop col) with
        | some lk =>
          obtain ⟨lex, k2⟩ := lk
          obtain ⟨⟨hp2, hne2⟩, hk2⟩ := comparisonMatch_pfx _ _ _ hcm
          refine ⟨[⟨k2, lex, mkSpan li col (col + lex.length)⟩],
            by simp [pushTok], ?_, by simp [pushTok], ?_⟩
          · intro t ht
            simp only [List.mem_singleton] at ht
            subst ht
            refine ⟨?_, rfl, rfl, rfl, hp2⟩
            rcases hk2 with rfl | rfl | rfl <;> rfl
          · intro hzero
            simp only at hzero
            exact absurd (List.length_eq_zero.mp hzero) hne2
        | none =>
          refine ⟨[⟨wordType w, w, mkSpan li col (col + w.length)⟩],
            by simp [pushTok], ?_, by simp [pushTok], ?_⟩
          · intro t ht
            simp only [List.mem_singleton] at ht
            subst ht
            refine ⟨?_, rfl, rfl, rfl, hp⟩
            unfold wordType
            cases hft : assocFind WORD_TOKENS w with
            | some k => exact wordTok_not_virtual _ _ hft
            | none => rfl
          · intro hzero
            simp only at hzero
            exact absurd (List.length_eq_zero.mp hzero) hne
      · -- a plain word
        refine ⟨[⟨wordType w, w, mkSpan li col (col + w.length)⟩],
          by simp [pushTok], ?_, by simp [pushTok], ?_⟩
        · intro t ht
          simp only [List.mem_singleton] at ht
          subst ht
          refine ⟨?_, rfl, rfl, rfl, hp⟩
          unfold wordType
          cases hft : assocFind WORD_TOKENS w with
          | some k => exact wordTok_not_virtual _ _ hft
          | none => rfl
        · intro hzero
          simp only at hzero
          exact absurd (List.length_eq_zero.mp hzero) hne

/-- Master invariant of the column loop: `scanCols` only appends tokens
scanned from the given line (non-virtual kinds, spans on the line, lexemes
that are exact slices), and never touches the indent counter. -/
theorem scanCols_spec (line : List Char) (li : Nat) :
    ∀ (fuel col : Nat) (st : TokSt),
      ∃ extra, (scanCols line li col fuel st).tokens = st.tokens ++ extra ∧
        (∀ t ∈ extra, emittedTok line li t) ∧
        (scanCols line li col fuel st).indent = st.indent := by
  intro fuel
  induction fuel with
  | zero =>
    intro col st
    exact ⟨[], by simp [scanCols], by simp, by simp [scanCols]⟩
  | succ fuel ih =>
    intro col st
    rw [scanCols]
    by_cases h : col < line.length
    · simp only [dif_pos h]
      cases hct : assocFind CHAR_TOKENS (line.get ⟨col, h⟩) with
      | some k =>
        obtain ⟨extra, he, hall, hind⟩ :=
          ih (col + 1) (pushTok st ⟨k, [line.get ⟨col, h⟩], mkSpan li col (col + 1)⟩)
        refine ⟨⟨k, [line.get ⟨col, h⟩], mkSpan li col (col + 1)⟩ :: extra, ?_, ?_, ?_⟩
        · rw [he]
          simp [pushTok]
        · intro t ht
          rcases List.mem_cons.mp ht with rfl | htl
          · refine ⟨charTok_not_virtual _ _ hct, rfl, rfl, rfl, ?_⟩
            refine ⟨line.drop (col + 1), ?_⟩
            exact (List.drop_eq_getElem_cons h).symm
          · exact hall t htl
        · rw [hind]
          simp [pushTok]
      | none =>
        obtain ⟨extraI, heI, hallI, hindI, hzeroI⟩ :=
          scanInner_spec line li col (line.get ⟨col, h⟩) st h
        by_cases hpos : 0 < (scanInner line li col (line.get ⟨col, h⟩) st).2
        · simp only [if_pos hpos]
          obtain ⟨extra, he, hall, hind⟩ :=
            ih (col + (scanInner line li col (line.get ⟨col, h⟩) st).2)
              ((scanInner line li col (line.get ⟨col, h⟩) st).1)
          refine ⟨extraI ++ extra, ?_, ?_, ?_⟩
          · rw [he, heI, List.append_assoc]
          · intro t ht
            rcases List.mem_append.mp ht with h1 | h2
            · exact hallI t h1
            · exact hall t h2
          · rw [hind, hindI]
        · simp only [if_neg hpos]
          have hz : (scanInner line li col (line.get ⟨col, h⟩) st).2 = 0 :=
            Nat.eq_zero_of_not_pos hpos
          have hstate := hzeroI hz
          obtain ⟨extra, he, hall, hind⟩ :=
            ih (col + 1)
              (errTok (unexpectedMsg (line.get ⟨col, h⟩)) [line.get ⟨col, h⟩] li col
                (scanInner line li col (line.get ⟨col, h⟩) st).1).1
          refine ⟨extra, ?_, hall, ?_⟩
          · rw [he]
            simp only [errTok]
            rw [hstate]
          · rw [hind]
            simp only [errTok]
            rw [hstate]
    · simp only [dif_neg h]
      refine ⟨[], ?_, ?_, ?_⟩
      · simp
      · intro t ht
        simp at ht
      · trivial

/-- `addIndentTokens` adds exactly the indent difference as INDENT tokens
(lexeme tab) or OUTDENT tokens (empty lexeme) and leaves the counter. -/
theorem addIndent_spec (li ind : Nat) (st : TokSt) :
    countKind .INDENT (addIndentTokens li ind st).tokens =
        countKind .INDENT st.tokens + (ind - st.indent) ∧
      countKind .OUTDENT (addIndentTokens li ind st).tokens =
        countKind .OUTDENT st.tokens + (st.indent - ind) ∧
      (addIndentTokens li ind st).indent = st.indent ∧
      (∀ t ∈ (addIndentTokens li ind st).tokens,
        t ∈ st.tokens ∨ (t.kind = .INDENT ∧ t.lexeme = ['\t']) ∨
          (t.kind = .OUTDENT ∧ t.lexeme = [])) := by
  rw [addIndentTokens]
  split_ifs with h1 h2
  · refine ⟨?_, ?_, rfl, ?_⟩
    · simp [countKind_append, countKind_replicate]
    · simp only [countKind_append, countKind_replicate]
      simp
      omega
    · intro t ht
      simp only [List.mem_append] at ht
      rcases ht with h | h
      · exact Or.inl h
      · have := List.eq_of_mem_replicate h
        subst this
        exact Or.inr (Or.inl ⟨rfl, rfl⟩)
  · refine ⟨?_, ?_, rfl, ?_⟩
    · simp only [countKind_append, countKind_replicate]
      simp
      omega
    · simp [countKind_append, countKind_replicate]
    · intro t ht
      simp only [List.mem_append] at ht
      rcases ht with h | h
      · exact Or.inl h
      · have := List.eq_of_mem_replicate h
        subst this
        exact Or.inr (Or.inr ⟨rfl, rfl⟩)
  · have he : ind = st.indent := by omega
    refine ⟨by omega, by omega, rfl, fun t ht => Or.inl ht⟩

/-- Scanning one line preserves the per-token lexeme property, provided the
line really is the `li`-th line of the split source. -/
theorem scanLine_tokensOk (lines : List (List Char)) (line : List Char)
    (li : Nat) (st : TokSt) (hline : line = lines.getD li [])
    (hst : ∀ t ∈ st.tokens, tokenLexemeOk lines t = true) :
    ∀ t ∈ (scanLine line li st).tokens, tokenLexemeOk lines t = true := by
  intro t ht
  rw [scanLine] at ht
  split_ifs at ht with h1 h2
  · exact hst t ht
  · exact hst t ht
  · simp only [pushTok, List.mem_append] at ht
    obtain ⟨extra, he, hall, _⟩ := scanCols_spec line li (line.length + 1)
      (getIndent line)
      { addIndentTokens li (getIndent line) st with indent := getIndent line }
    rcases ht with ht | hNL
    · rw [he] at ht
      simp only [List.mem_append] at ht
      rcases ht with ht | hex
      · -- a token of the state after addIndentTokens
        obtain ⟨_, _, _, hmem⟩ := addIndent_spec li (getIndent line) st
        rcases hmem t ht with hold | ⟨hk, hl⟩ | ⟨hk, hl⟩
        · exact hst t hold
        · obtain ⟨kind, lexeme, sp⟩ := t
          simp only at hk hl
          subst hk
          subst hl
          rfl
        · obtain ⟨kind, lexeme, sp⟩ := t
          simp only at hk hl
          subst hk
          subst hl
          rfl
      · exact emittedTok_tokenLexemeOk lines li t (hline ▸ hall t hex)
    · simp only [List.mem_singleton] at hNL
      subst hNL
      rfl

/-- Scanning one line keeps the indent balance: the INDENT count equals the
OUTDENT count plus the running indent counter. -/
theorem scanLine_balance (line : List Char) (li : Nat) (st : TokSt)
    (hinv : countKind .INDENT st.tokens =
      countKind .OUTDENT st.tokens + st.indent) :
    countKind .INDENT (scanLine line li st).tokens =
      countKind .OUTDENT (scanLine line li st).tokens +
        (scanLine line li st).indent := by
  rw [scanLine]
  split_ifs with h1 h2
  · exact hinv
  · exact hinv
  · obtain ⟨hI, hO, hInd, _⟩ := addIndent_spec li (getIndent line) st
    obtain ⟨extra, he, hall, hind⟩ := scanCols_spec line li (line.length + 1)
      (getIndent line)
      { addIndentTokens li (getIndent line) st with indent := getIndent line }
    have hexI : countKind .INDENT extra = 0 := by
      apply countKind_zero_of_not
      intro t htm hkind
      have := (hall t htm).1
      rw [hkind] at this
      simp [virtualKind] at this
    have hexO : countKind .OUTDENT extra = 0 := by
      apply countKind_zero_of_not
      intro t htm hkind
      have := (hall t htm).1
      rw [hkind] at this
      simp [virtualKind] at this
    simp only [pushTok, countKind_append, he, countKind_single, hexI, hexO,
      hind]
    simp only [show ((LexicalToken.NEWLINE == LexicalToken.INDENT) = false)
      from rfl]
    simp only [show ((LexicalToken.NEWLINE == LexicalToken.OUTDENT) = false)
      from rfl]
    simp only [if_false, Bool.false_eq_true]
    omega

/-- `scanFrom` preserves the per-token lexeme property when each element of
the remaining tail is the corresponding line of the split source. -/
theorem scanFrom_tokensOk (lines : List (List Char)) :
    ∀ (tail : List (List Char)) (i : Nat) (st : TokSt),
      (∀ k, k < tail.length → tail.getD k [] = lines.getD (i + k) []) →
      (∀ t ∈ st.tokens, tokenLexemeOk lines t = true) →
      ∀ t ∈ (scanFrom tail i st).tokens, tokenLexemeOk lines t = true := by
  intro tail
  induction tail with
  | nil =>
    intro i st _ hst
    simpa [scanFrom] using hst
  | cons l rest ih =>
    intro i st hconn hst
    simp only [scanFrom]
    apply ih (i + 1)
    · intro k hk
      have := hconn (k + 1) (by simpa using Nat.succ_lt_succ hk)
      simpa [Nat.add_assoc, Nat.add_comm 1 k] using this
    · refine scanLine_tokensOk lines l i st ?_ hst
      have h0 := hconn 0 (by simp)
      simpa using h0

/-- `scanFrom` keeps the indent balance. -/
theorem scanFrom_balance :
    ∀ (tail : List (List Char)) (i : Nat) (st : TokSt),
      countKind .INDENT st.tokens = countKind .OUTDENT st.tokens + st.indent →
      countKind .INDENT (scanFrom tail i st).tokens =
        countKind .OUTDENT (scanFrom tail i st).tokens +
          (scanFrom tail i st).indent := by
  intro tail
  induction tail with
  | nil => intro i st h; simpa [scanFrom] using h
  | cons l rest ih =>
    intro i st h
    simp only [scanFrom]
    exact ih (i + 1) _ (scanLine_balance l i st h)

/-- C3 (amended).  Every OUTDENT and EOF token returned by `tokenize` has an
empty lexeme, every NEWLINE token has lexeme `"\n"`, every INDENT token has
lexeme `"\t"`, and every non-virtual token's lexeme is the exact source
substring at its span. -/
theorem C3_token_lexemes (source : List Char) :
    ((tokenize source).tokens.all
      (fun t => tokenLexemeOk (splitLines source) t)) = true := by
  rw [List.all_eq_true]
  intro t ht
  rw [tokenize] at ht
  simp only [pushTok, List.mem_append, List.mem_singleton] at ht
  rcases ht with (hsf | hrep) | heof
  · refine scanFrom_tokensOk (splitLines source) (splitLines source) 0 {}
      (fun k _ => by simp) ?_ t hsf
    intro x hx
    exact absurd hx (List.not_mem_nil x)
  · have := List.eq_of_mem_replicate hrep
    subst this
    rfl
  · subst heof
    rfl

/-- C7.  For every input source, the number of INDENT tokens returned by
`tokenize` equals the number of OUTDENT tokens. -/
theorem C7_indent_outdent_balance (source : List Char) :
    countKind .INDENT (tokenize source).tokens =
      countKind .OUTDENT (tokenize source).tokens := by
  have hbal := scanFrom_balance (splitLines source) 0 {} (by simp [countKind])
  rw [tokenize]
  simp only [pushTok, countKind_append, countKind_single, countKind_replicate]
  simp only [show ((LexicalToken.EOF == LexicalToken.INDENT) = false) from rfl,
    show ((LexicalToken.EOF == LexicalToken.OUTDENT) = false) from rfl,
    show ((LexicalToken.OUTDENT == LexicalToken.INDENT) = false) from rfl,
    show ((LexicalToken.OUTDENT == LexicalToken.OUTDENT) = true) from rfl,
    if_true, if_false, Bool.false_eq_true]
  omega

/-- C3 (counterexample).  The claim as stated fails: tokenizing `a` emits a
NEWLINE token whose lexeme is `"\n"`, not the empty string, so not every
virtual token has an empty lexeme. -/
theorem C3_newline_lexeme_counterexample :
    ((tokenize "a".toList).tokens.all
      (fun t => claimC3TokenOk (splitLines "a".toList) t)) = false := by
  decide

/-- C9.  Tokenizing the empty string returns exactly one EOF token, no
comments and no diagnostics, and parsing that token list yields a Program
with an empty body and no diagnostics. -/
theorem C9_empty_input :
    tokenize "".toList =
      ⟨[⟨.EOF, [], mkSpan 0 0 1⟩], [], [], 0⟩ ∧
      parseSource "" = .ok ⟨[]⟩ :=
  ⟨by decide, rfl⟩

/-- C6.  Tokenizing `if x is less than y` produces exactly one IS_LESS_THAN
token, whose lexeme is `"is less than"` and whose span covers all three
words (columns 5 to 17 of line 0); no token is emitted for the standalone
words `is`, `less` or `than`. -/
theorem C6_is_less_than_single_token :
    ((tokenize "if x is less than y".toList).tokens.filter
        (fun t => t.kind == .IS_LESS_THAN)) =
      [⟨.IS_LESS_THAN, "is less than".toList, mkSpan 0 5 17⟩] ∧
      ((tokenize "if x is less than y".toList).tokens.all
        (fun t => !(t.lexeme == "is".toList) && !(t.lexeme == "less".toList) &&
          !(t.lexeme == "than".toList))) = true :=
  ⟨by decide, by decide⟩

/-- C1 (counterexample).  The claim as stated fails on the code: parsing
`fn()` does produce one ExpressionStmt holding a Call with no params, but
the callee is not an `Identifier` node (it is a `Literal` node, as the
snapshot's own call test asserts). -/
theorem C1_object_not_identifier_node :
    claimC1Holds (parseSource "fn()") = false := by
  decide

/-- C1 (amended).  Parsing `fn()` yields a Program whose body is exactly one
ExpressionStmt whose expression is a Call with an empty params list and
whose object is a `Literal` node whose value token has lexeme `fn`. -/
theorem C1_call_fn_literal_callee :
    amendedC1Holds (parseSource "fn()") = true := by
  decide

/-- C2 (counterexample).  The claim as stated fails: parsing `new 2(3)`
produces a New expression whose object is a `Literal` (the number 2), not
an Identifier or a Member chain with Identifier leaves. -/
theorem C2_new_object_literal_counterexample :
    (firstNewObject (parseSource "new 2(3)")).map identMemberChain =
      some false := by
  decide

/-- C4 (counterexample).  The claim as stated fails: on input `'ab` the
tokenizer records one diagnostic at the unterminated quote but does NOT
advance to the end of the line — it continues at the next column and scans
`ab` as an IDENTIFIER token. -/
theorem C4_unterminated_string_counterexample :
    (tokenize "'ab".toList).diagnostics.length = 1 ∧
      ((tokenize "'ab".toList).tokens.filter
        (fun t => decide (t.span.start.line = 0) && !virtualKind t.kind)) =
      [⟨.IDENTIFIER, "ab".toList, mkSpan 0 1 3⟩] :=
  ⟨by decide, by decide⟩

/-- Per-list form of the `declarationsInClass` report computation. -/
theorem checkNode_flatten (l : List ClassProp) :
    (l.map (fun p => checkNodeReport p.value)).flatten =
      ((l.map ClassProp.value).filter (fun n => !isDeclaration n)).map
        (fun n => (⟨declMsg, n.span⟩ : Report)) := by
  induction l with
  | nil => rfl
  | cons p r ih =>
    simp only [checkNodeReport] at ih ⊢
    by_cases h : isDeclaration p.value <;> simp [h, ih, List.filter_cons]

/-- C8.  For every ClassDecl body, the `declarationsInClass` rule reports
"You can only put declarations in a class body" at the offending node's
span for exactly the entries of `staticBody` and `instanceBody` whose value
is not a declaration node, and nothing for the declaration entries. -/
theorem C8_declarations_in_class_reports
    (staticBody instanceBody : List ClassProp) :
    declarationsInClassReports staticBody instanceBody =
      (((staticBody ++ instanceBody).map ClassProp.value).filter
        (fun n => !isDeclaration n)).map
        (fun n => (⟨declMsg, n.span⟩ : Report)) := by
  simp [declarationsInClassReports, checkNode_flatten, List.map_append,
    List.filter_append]

/-- C4 (amended).  When the scanner meets a `'` that does not open a
well-formed string literal (no closing quote on the rest of the line), it
records exactly one ERROR diagnostic spanning that single quote character,
emits no token, advances one column, and continues scanning the same
line. -/
theorem C4_unterminated_string_skips_one (line : List Char) (li col fuel : Nat)
    (st : TokSt) (h : col < line.length) (hq : line.get ⟨col, h⟩ = '\'')
    (hns : stringMatch (line.drop col) = none) :
    scanCols line li col (fuel + 1) st =
      scanCols line li (col + 1) fuel
        { st with diagnostics := st.diagnostics ++
            [⟨Level.ERROR, "tokenizer", unexpectedMsg '\'',
              mkSpan li col (col + 1)⟩] } := by
  have hct : assocFind CHAR_TOKENS (line.get ⟨col, h⟩) = none := by
    rw [hq]
    rfl
  have hsi : scanInner line li col (line.get ⟨col, h⟩) st = (st, 0) := by
    rw [hq, scanInner]
    rw [if_neg (by decide), if_pos rfl, matchString.eq_def, hns]
  rw [scanCols, dif_pos h, hct]
  simp only [hsi]
  rw [if_neg (by decide)]
  rw [hq]
  rfl

/-- `matchWord` always advances: its returned length is positive. -/
theorem matchWord_pos (w chars : List Char) (li col : Nat) (st : TokSt)
    (hne : w ≠ []) : 0 < (matchWord w chars li col st).2 := by
  rw [matchWord]
  split_ifs
  · simpa [errTok, Nat.pos_iff_ne_zero] using
      fun hz => hne (List.length_eq_zero.mp hz)
  · cases hcm : comparisonMatch chars with
    | some lk =>
      obtain ⟨lex, k2⟩ := lk
      obtain ⟨⟨_, hne2⟩, _⟩ := comparisonMatch_pfx _ _ _ hcm
      simpa [Nat.pos_iff_ne_zero] using
        fun hz => hne2 (List.length_eq_zero.mp hz)
    | none =>
      simpa [Nat.pos_iff_ne_zero] using
        fun hz => hne (List.length_eq_zero.mp hz)
  · simpa [Nat.pos_iff_ne_zero] using
      fun hz => hne (List.length_eq_zero.mp hz)

/-- One step of the column loop when the current character starts a word:
the loop applies `matchWord` and continues at the matched length. -/
theorem scanCols_word_step (line : List Char) (li col fuel : Nat) (st : TokSt)
    (w : List Char) (h : col < line.length)
    (hct : assocFind CHAR_TOKENS (line.get ⟨col, h⟩) = none)
    (hnd : isDigitB (line.get ⟨col, h⟩) = false)
    (hnq : line.get ⟨col, h⟩ ≠ '\'')
    (hnh : line.get ⟨col, h⟩ ≠ '#')
    (hw : wordMatch (line.drop col) = some w) :
    scanCols line li col (fuel + 1) st =
      scanCols line li (col + (matchWord w (line.drop col) li col st).2) fuel
        (matchWord w (line.drop col) li col st).1 := by
  have hne : w ≠ [] := (wordMatch_pfx _ _ hw).2
  have hsi : scanInner line li col (line.get ⟨col, h⟩) st =
      matchWord w (line.drop col) li col st := by
    rw [scanInner, if_neg (by simpa using hnd), if_neg hnq, if_neg hnh, hw]
  rw [scanCols, dif_pos h, hct]
  simp only [hsi]
  rw [if_pos (matchWord_pos w (line.drop col) li col st hne)]

/-- C5.  When the column scanner matches a standalone word `less`,
`greater` or `than`, it records one ERROR diagnostic at the word's span,
emits no token, skips exactly the word's length, and continues scanning
the same line. -/
theorem C5_bare_word_diagnostic (line : List Char) (li col fuel : Nat)
    (st : TokSt) (w : List Char) (h : col < line.length)
    (hw : wordMatch (line.drop col) = some w)
    (hm : w = "less".toList ∨ w = "greater".toList ∨ w = "than".toList) :
    scanCols line li col (fuel + 1) st =
      scanCols line li (col + w.length) fuel
        { st with diagnostics := st.diagnostics ++
            [⟨Level.ERROR, "tokenizer", bareWordMsg w,
              mkSpan li col (col + w.length)⟩] } := by
  have hhead := wordMatch_head _ _ hw
  have hdrop : line.drop col = line.get ⟨col, h⟩ :: line.drop (col + 1) :=
    List.drop_eq_getElem_cons h
  rw [hdrop] at hhead
  simp only [List.head?_cons] at hhead
  have hmw : matchWord w (line.drop col) li col st =
      ({ st with diagnostics := st.diagnostics ++
          [⟨Level.ERROR, "tokenizer", bareWordMsg w,
            mkSpan li col (col + w.length)⟩] }, w.length) := by
    rw [matchWord, if_pos hm]
    rfl
  rcases hm with rfl | rfl | rfl
  all_goals
    have hch := (Option.some.inj hhead).symm
  all_goals
    rw [scanCols_word_step line li col fuel st _ h (by rw [hch]; decide)
      (by rw [hch]; decide) (by rw [hch]; decide) (by rw [hch]; decide) hw]
  all_goals rw [hmw]

/-- C10.  A word whose lexeme merely begins with `is` (for example
`island`) is tokenized as a single IDENTIFIER token covering the whole
word: the extended comparison-operator match happens only when the matched
word is exactly `is`, and no reserved word other than `is` begins with
`is`. -/
theorem C10_is_prefix_word_identifier (line : List Char) (li col fuel : Nat)
    (st : TokSt) (w : List Char) (h : col < line.length)
    (hw : wordMatch (line.drop col) = some w)
    (hpre : ("is".toList).isPrefixOf w = true)
    (hne : w ≠ "is".toList) :
    scanCols line li col (fuel + 1) st =
      scanCols line li (col + w.length) fuel
        (pushTok st ⟨.IDENTIFIER, w, mkSpan li col (col + w.length)⟩) := by
  obtain ⟨t, ht⟩ := List.isPrefixOf_iff_prefix.mp hpre
  have hdrop : line.drop col = line.get ⟨col, h⟩ :: line.drop (col + 1) :=
    List.drop_eq_getElem_cons h
  have hhead := wordMatch_head _ _ hw
  rw [hdrop] at hhead
  simp only [List.head?_cons] at hhead
  have hwshape : w = 'i' :: 's' :: t := by
    rw [← ht]
    rfl
  have hch : line.get ⟨col, h⟩ = 'i' := by
    rw [hwshape] at hhead
    simp only [List.head?_cons] at hhead
    exact (Option.some.inj hhead).symm
  have hwt : wordType w = .IDENTIFIER := by
    rw [wordType.eq_def]
    cases hfind : assocFind WORD_TOKENS w with
    | none => rfl
    | some k => exact absurd (wordTok_is_key w k hfind hpre) hne
  have hguard :
      ¬(w = "less".toList ∨ w = "greater".toList ∨ w = "than".toList) := by
    rw [hwshape]
    rintro (hx | hx | hx) <;> simp [List.cons.injEq] at hx
  have hmw : matchWord w (line.drop col) li col st =
      (pushTok st ⟨.IDENTIFIER, w, mkSpan li col (col + w.length)⟩,
        w.length) := by
    rw [matchWord, if_neg hguard, if_neg hne, hwt]
  rw [scanCols_word_step line li col fuel st _ h (by rw [hch]; decide)
    (by rw [hch]; decide) (by rw [hch]; decide) (by rw [hch]; decide) hw]
  rw [hmw]

/-- A `New` node with a member-chain object is itself a prefix-form node. -/
theorem newChain_isPrefixForm (n : Node) (h : newObjectChainOk n = true) :
    isPrefixFormNode n = true := by
  cases n <;> first | rfl | simp [newObjectChainOk] at h

/-- A prefix-form node is a (trivial) member chain over a prefix form. -/
theorem prefixForm_chain (n : Node) (h : isPrefixFormNode n = true) :
    memberChainOverPrefixForm n = true := by
  cases n <;> first | rfl | simp [isPrefixFormNode] at h

/-- Every infix precedence in the Pratt table is at most OP11. -/
theorem infixPrecOf_le (k : LexicalToken) (p : Nat)
    (h : infixPrecOf k = some p) : p ≤ 11 := by
  cases k <;> simp [infixPrecOf] at h <;> omega

/-- At request OP11 the infix loop consumes nothing. -/
theorem infixRun11_id (fuel : Nat) (left : Node) (s : PState) (r : Node)
    (s2 : PState) (h : infixRun fuel 11 left s = .ok (r, s2)) :
    r = left := by
  match fuel with
  | 0 => simp [infixRun] at h
  | fuel + 1 =>
    rw [infixRun] at h
    cases hk : infixPrecOf (peekT s).kind with
    | some p =>
      rw [hk] at h
      simp only at h
      rw [if_neg (by have := infixPrecOf_le _ _ hk; omega)] at h
      simp only [Except.ok.injEq, Prod.mk.injEq] at h
      exact h.1.symm
    | none =>
      rw [hk] at h
      simp only [Except.ok.injEq, Prod.mk.injEq] at h
      exact h.1.symm

/-- `memberExpr` wraps its object in one `Member` node, preserving
member-chain shape. -/
theorem memberExpr_chain (obj : Node) (d : Token) (s : PState) (n : Node)
    (s2 : PState) (h : memberExpr obj d s = .ok (n, s2))
    (hobj : memberChainOverPrefixForm obj = true) :
    memberChainOverPrefixForm n = true := by
  rw [memberExpr] at h
  cases hc : consumeK .IDENTIFIER "Expected an identifier after the ." s with
  | error e => rw [hc] at h; simp at h
  | ok pr =>
    obtain ⟨prop, s3⟩ := pr
    rw [hc] at h
    simp only [Except.ok.injEq, Prod.mk.injEq] at h
    obtain ⟨hn, -⟩ := h
    subst hn
    simpa [memberChainOverPrefixForm] using hobj

/-- The dot loop of `newExpr` preserves member-chain shape. -/
theorem newMemberLoop_chain (fuel : Nat) :
    ∀ (obj : Node) (s : PState) (n : Node) (s2 : PState),
      newMemberLoop fuel obj s = .ok (n, s2) →
      memberChainOverPrefixForm obj = true →
      memberChainOverPrefixForm n = true := by
  induction fuel with
  | zero =>
    intro obj s n s2 h _
    simp [newMemberLoop] at h
  | succ fuel ih =>
    intro obj s n s2 h hobj
    rw [newMemberLoop] at h
    cases hm : matchK s .DOT with
    | mk b s1 =>
      rw [hm] at h
      cases b with
      | true =>
        simp only at h
        cases hme : memberExpr obj (prevT s1) s1 with
        | error e => rw [hme] at h; simp at h
        | ok pr =>
          obtain ⟨obj2, s3⟩ := pr
          rw [hme] at h
          simp only at h
          exact ih obj2 s3 n s2 h
            (memberExpr_chain obj (prevT s1) s1 obj2 s3 hme hobj)
      | false =>
        simp only [Except.ok.injEq, Prod.mk.injEq] at h
        obtain ⟨hn, -⟩ := h
        subst hn
        exact hobj

/-- Shape of successful parses at OP11 and of `newExpr`, by combined
induction over the fuel of the mutually recursive Pratt functions: a prefix
parse returns a prefix-form node, and `newExpr` returns a `New` node whose
object is a member chain over a prefix-form leaf. -/
theorem parseShape (fuel : Nat) :
    (∀ s n s2, parsePrefixForm fuel s = .ok (n, s2) →
      isPrefixFormNode n = true) ∧
    (∀ s n s2, parsePrecedence fuel 11 s = .ok (n, s2) →
      isPrefixFormNode n = true) ∧
    (∀ pfx s n s2, newExpr fuel pfx s = .ok (n, s2) →
      newObjectChainOk n = true) := by
  induction fuel with
  | zero =>
    refine ⟨?_, ?_, ?_⟩
    · intro s n s2 h
      simp [parsePrefixForm] at h
    · intro s n s2 h
      simp [parsePrecedence] at h
    · intro pfx s n s2 h
      simp [newExpr] at h
  | succ fuel ih =>
    obtain ⟨ihPre, ihP11, ihNew⟩ := ih
    have hNew : ∀ pfx s n s2, newExpr (fuel + 1) pfx s = .ok (n, s2) →
        newObjectChainOk n = true := by
      intro pfx s n s2 h
      rw [newExpr] at h
      cases h1 : parsePrecedence fuel 11 (ignoreNL s) with
      | error e => rw [h1] at h; simp at h
      | ok pr1 =>
        obtain ⟨obj0, sa⟩ := pr1
        rw [h1] at h
        simp only at h
        cases h2 : newMemberLoop fuel obj0 (ignoreNL sa) with
        | error e => rw [h2] at h; simp at h
        | ok pr2 =>
          obtain ⟨obj, sb⟩ := pr2
          rw [h2] at h
          simp only at h
          cases h3 : newGenericArgs fuel (ignoreNL sb) with
          | error e => rw [h3] at h; simp at h
          | ok pr3 =>
            obtain ⟨ga, sd⟩ := pr3
            rw [h3] at h
            simp only at h
            cases h4 : consumeK .L_PAR "Expected a parenthesis after the class" sd with
            | error e => rw [h4] at h; simp at h
            | ok pr4 =>
              obtain ⟨par, se⟩ := pr4
              rw [h4] at h
              simp only at h
              cases h5 : matchExpressionList fuel .R_PAR se with
              | error e => rw [h5] at h; simp at h
              | ok pr5 =>
                obtain ⟨params, sf⟩ := pr5
                rw [h5] at h
                simp only [Except.ok.injEq, Prod.mk.injEq] at h
                obtain ⟨hn, -⟩ := h
                subst hn
                simp only [newObjectChainOk]
                exact newMemberLoop_chain fuel obj0 (ignoreNL sa) obj sb h2
                  (prefixForm_chain _ (ihP11 _ _ _ h1))
    have hPre : ∀ s n s2, parsePrefixForm (fuel + 1) s = .ok (n, s2) →
        isPrefixFormNode n = true := by
      intro s n s2 h
      rw [parsePrefixForm] at h
      cases hk : (peekT s).kind <;> rw [hk] at h <;> simp only at h
      all_goals first
        | (simp only [Except.ok.injEq, Prod.mk.injEq] at h
           obtain ⟨hn, -⟩ := h
           subst hn
           rfl)
        | (exact newChain_isPrefixForm n (ihNew _ _ _ _ h))
        | ((repeat' split at h)
           all_goals
             first
               | (simp only [Except.ok.injEq, Prod.mk.injEq] at h
                  obtain ⟨hn, -⟩ := h
                  subst hn
                  rfl)
               | simp at h)
    have hP11 : ∀ s n s2, parsePrecedence (fuel + 1) 11 s = .ok (n, s2) →
        isPrefixFormNode n = true := by
      intro s n s2 h
      rw [parsePrecedence] at h
      cases h1 : parsePrefixForm fuel s with
      | error e => rw [h1] at h; simp at h
      | ok pr =>
        obtain ⟨left, s1⟩ := pr
        rw [h1] at h
        simp only at h
        have hleft := infixRun11_id fuel left s1 n s2 h
        subst hleft
        exact ihPre _ _ _ h1
    exact ⟨hPre, hP11, hNew⟩

/-- C2 (amended).  Every `New` expression `newExpr` produces has an object
that is a (possibly empty) chain of `Member` expressions over a
prefix-form leaf; the leaf may be any prefix expression (for example a
`Literal`), not only an identifier — and `newExpr` is the only producer of
`New` nodes in the parser. -/
theorem C2_new_object_member_chain (fuel : Nat) (pfx : Token) (s : PState)
    (n : Node) (s2 : PState) (h : newExpr fuel pfx s = .ok (n, s2)) :
    newObjectChainOk n = true :=
  (parseShape fuel).2.2 pfx s n s2 h

/-- Witness for `C4_unterminated_string_skips_one`: concrete step on the
line `'ab` at column 0. -/
theorem C4_unterminated_string_skips_one_witness :
    ((0 < ("'ab".toList).length) ∧
      stringMatch (("'ab".toList).drop 0) = none) ∧
    scanCols "'ab".toList 0 0 9 ⟨[], [], [], 0⟩ =
      scanCols "'ab".toList 0 1 8
        ⟨[], [], [⟨Level.ERROR, "tokenizer", unexpectedMsg '\'',
          mkSpan 0 0 1⟩], 0⟩ := by
  refine ⟨⟨by decide, by decide⟩, ?_⟩
  exact C4_unterminated_string_skips_one "'ab".toList 0 0 8 ⟨[], [], [], 0⟩
    (by decide) (by decide) (by decide)

/-- Witness for `C5_bare_word_diagnostic`: concrete step on the line
`less x` at column 0, where the bare word `less` is scanned. -/
theorem C5_bare_word_diagnostic_witness :
    ((0 < ("less x".toList).length) ∧
      wordMatch (("less x".toList).drop 0) = some ("less".toList)) ∧
    scanCols "less x".toList 0 0 9 ⟨[], [], [], 0⟩ =
      scanCols "less x".toList 0 4 8
        ⟨[], [], [⟨Level.ERROR, "tokenizer", bareWordMsg ("less".toList),
          mkSpan 0 0 4⟩], 0⟩ := by
  refine ⟨⟨by decide, by decide⟩, ?_⟩
  exact C5_bare_word_diagnostic "less x".toList 0 0 8 ⟨[], [], [], 0⟩
    ("less".toList) (by decide) (by decide) (by decide)

/-- Witness for `C10_is_prefix_word_identifier`: concrete step on the line
`island` at column 0, where the word starts with `is` but is longer, and an
IDENTIFIER token is pushed. -/
theorem C10_is_prefix_word_identifier_witness :
    ((0 < ("island".toList).length) ∧
      wordMatch (("island".toList).drop 0) = some ("island".toList) ∧
      ("is".toList).isPrefixOf ("island".toList) = true ∧
      "island".toList ≠ "is".toList) ∧
    scanCols "island".toList 0 0 9 ⟨[], [], [], 0⟩ =
      scanCols "island".toList 0 6 8
        ⟨[⟨.IDENTIFIER, "island".toList, mkSpan 0 0 6⟩], [], [], 0⟩ := by
  refine ⟨⟨by decide, by decide, by decide, by decide⟩, ?_⟩
  exact C10_is_prefix_word_identifier "island".toList 0 0 8 ⟨[], [], [], 0⟩
    ("island".toList) (by decide) (by decide) (by decide) (by decide)

/-- Witness for `C2_new_object_member_chain`: a concrete successful run of
`newExpr` on the token stream of `new 2()`, whose object is the Literal
node for the number 2. -/
theorem C2_new_object_member_chain_witness :
    newExpr 16 ⟨.NEW, "new".toList, mkSpan 0 0 3⟩
        ⟨[⟨.NEW, "new".toList, mkSpan 0 0 3⟩,
          ⟨.NUMBER, "2".toList, mkSpan 0 4 5⟩,
          ⟨.L_PAR, "(".toList, mkSpan 0 5 6⟩,
          ⟨.R_PAR, ")".toList, mkSpan 0 6 7⟩,
          ⟨.EOF, [], mkSpan 1 0 1⟩], 1⟩ =
      .ok (.newE (.literal ⟨.NUMBER, "2".toList, mkSpan 0 4 5⟩ (mkSpan 0 4 5))
          [] [] (mkSpan 0 0 7),
        ⟨[⟨.NEW, "new".toList, mkSpan 0 0 3⟩,
          ⟨.NUMBER, "2".toList, mkSpan 0 4 5⟩,
          ⟨.L_PAR, "(".toList, mkSpan 0 5 6⟩,
          ⟨.R_PAR, ")".toList, mkSpan 0 6 7⟩,
          ⟨.EOF, [], mkSpan 1 0 1⟩], 4⟩) ∧
    newObjectChainOk
      (.newE (.literal ⟨.NUMBER, "2".toList, mkSpan 0 4 5⟩ (mkSpan 0 4 5))
        [] [] (mkSpan 0 0 7)) = true := by
  have h : newExpr 16 ⟨.NEW, "new".toList, mkSpan 0 0 3⟩
      ⟨[⟨.NEW, "new".toList, mkSpan 0 0 3⟩,
        ⟨.NUMBER, "2".toList, mkSpan 0 4 5⟩,
        ⟨.L_PAR, "(".toList, mkSpan 0 5 6⟩,
        ⟨.R_PAR, ")".toList, mkSpan 0 6 7⟩,
        ⟨.EOF, [], mkSpan 1 0 1⟩], 1⟩ =
    .ok (.newE (.literal ⟨.NUMBER, "2".toList, mkSpan 0 4 5⟩ (mkSpan 0 4 5))
        [] [] (mkSpan 0 0 7),
      ⟨[⟨.NEW, "new".toList, mkSpan 0 0 3⟩,
        ⟨.NUMBER, "2".toList, mkSpan 0 4 5⟩,
        ⟨.L_PAR, "(".toList, mkSpan 0 5 6⟩,
        ⟨.R_PAR, ")".toList, mkSpan 0 6 7⟩,
        ⟨.EOF, [], mkSpan 1 0 1⟩], 4⟩) := by rfl
  exact ⟨h, C2_new_object_member_chain 16 _ _ _ _ h⟩

end Syntek